import Mathlib

/-!
# Verification of the AlpacaBackend streaming candle-aggregation core

A shallow embedding, in Lean 4, of the streaming aggregation and persistence
pipeline of the AlpacaBackend repository:

* `apps/core/services/websocket/utils.py`        — bucket math (`floor_to_bucket`)
* `apps/core/services/websocket/persistence.py`  — `CandleRepository.save_candles`,
  `CandleRepository.fetch_minute_ids`
* `apps/core/services/websocket/aggregator.py`   — `TimeframeAggregator`
  (`rollup_from_minutes` merge, `persist_open`, `flush_closed`)
* `apps/core/services/websocket/backfill.py`     — `BackfillGuard`
  (`is_historical_complete`, `maybe_schedule_for_assets`)
* `apps/core/services/backfill_coordinator.py`   — `request_backfill`

Modelling conventions:
* Python `float` prices, volumes and monotonic clock readings are modelled
  as `ℚ`; timestamps (timezone-aware UTC datetimes) are modelled as epoch
  seconds — `Nat` where the code only floors post-epoch instants
  (`floor_to_bucket`, bucket starts), `Int` where ages/subtraction appear.
* Python dicts keyed by tuples are modelled as association lists
  `List (key × value)`; real dicts have no duplicate keys, so theorems carry
  `Nodup` hypotheses on the key projection where needed.
* Fallible external reads (Django cache, ORM) are modelled as `Except Unit`
  values / an explicit failure flag; code paths that swallow an exception
  are translated as handling the `.error` case, and code paths with no
  `try/except` propagate it.
-/

namespace AlpacaWS

/-- Prices, volumes and fractional-second clock readings (Python floats). -/
abbrev Price := ℚ

/-- Timestamps as seconds since the Unix epoch (UTC). -/
abbrev Ts := Nat

/-- Asset primary keys. -/
abbrev AssetId := Int

/-- `main.const.TF_1T`. -/
def TF_1T : String := "1T"

/-- `main.const.TF_CFG`: timeframe label ↦ bucket duration, in seconds
(Python stores `timedelta`s; `timedelta.total_seconds()` of each entry). -/
def TF_CFG : List (String × Nat) :=
  [("1T", 60), ("5T", 300), ("15T", 900), ("30T", 1800),
   ("1H", 3600), ("4H", 14400), ("1D", 86400)]

/-! ## BucketMath (`apps/core/services/websocket/utils.py`)

`floor_to_bucket(ts, delta)`:
```
minutes = int(delta.total_seconds() // 60)
if minutes <= 0: return ts.replace(second=0, microsecond=0)
total_min = int(ts.timestamp() // 60)
bucket_min = (total_min // minutes) * minutes
return datetime.fromtimestamp(bucket_min * 60, tz=pytz.UTC)
```
`ts` is an aware post-epoch UTC datetime, so `ts.timestamp()` is the
nonnegative epoch-second count and `//` is `Nat` floor division. -/

/-- `floor_to_bucket` from `utils.py`, on epoch seconds. `deltaSecs` is the
duration's `total_seconds()`. -/
def floor_to_bucket (ts : Ts) (deltaSecs : Nat) : Ts :=
  let minutes := deltaSecs / 60
  if minutes ≤ 0 then ts - ts % 60
  else
    let totalMin := ts / 60
    (totalMin / minutes) * minutes * 60

/-- Modelled from the spec: the spec's `floorToBucket` for sub-day durations
claims alignment "to a market-open anchor (09:30 in the asset's trading
timezone) rather than midnight".  No such anchored flooring exists anywhere
in `src/`; this definition follows the spec's words: buckets are laid out
from the session anchor (that date's 09:30 market-open instant, as epoch
seconds) in steps of the duration. -/
def floor_to_bucket_anchored (ts anchor deltaSecs : Nat) : Nat :=
  anchor + ((ts - anchor) / deltaSecs) * deltaSecs

/-- Epoch instant of `2023-10-30T14:32:45Z`. -/
def exTs : Nat := 1698676365

/-- Epoch instant of `2023-10-30T14:30:00Z`. -/
def exTs5Floor : Nat := 1698676200

/-- Epoch instant of `2023-10-30T13:30:00Z` = 09:30 America/New_York
(EDT, UTC-4) on 2023-10-30: the market-open anchor for that session. -/
def exAnchor : Nat := 1698672600

/-! ## Association-list primitives

Python dicts (and unique-keyed DB tables) are modelled as `List (κ × ν)`.
`assocGet` is dict lookup / `.get`; `assocUpd` is item assignment
(replace the first entry with the key, else append — identical to dict
assignment on duplicate-free lists); `assocDel` is `dict.pop(k, None)`
(modelled as removing every entry with the key, identical to removing the
single one on duplicate-free lists). -/

/-- Dict lookup: value of the first entry with key `k`. -/
def assocGet {κ ν : Type} [DecidableEq κ] : List (κ × ν) → κ → Option ν
  | [], _ => none
  | e :: l, k => if e.1 = k then some e.2 else assocGet l k

/-- Dict item assignment `d[k] = v`. -/
def assocUpd {κ ν : Type} [DecidableEq κ] : List (κ × ν) → κ → ν → List (κ × ν)
  | [], k, v => [(k, v)]
  | e :: l, k, v => if e.1 = k then (k, v) :: l else e :: assocUpd l k v

/-- Dict removal `d.pop(k, None)`. -/
def assocDel {κ ν : Type} [DecidableEq κ] (l : List (κ × ν)) (k : κ) : List (κ × ν) :=
  l.filter (fun e => ¬ e.1 = k)

/-! ## CandleStore (`apps/core/services/websocket/persistence.py`)

The `Candle` row fields touched by `save_candles`.  All OHLCV columns are
nullable; `minute_candle_ids` is a nullable JSON list.  `UpdateData` is the
per-key update dict: every call site builds dicts carrying all five OHLCV
keys (values may be `None`), with `minute_candle_ids` optional, so an
`Option` field covers both an absent key and a `None` value. -/

/-- A persisted `Candle` row (the columns `save_candles` reads/writes). -/
structure Row where
  open_ : Option Price
  high : Option Price
  low : Option Price
  close : Option Price
  volume : Option Price
  minute_candle_ids : Option (List Int)
deriving DecidableEq

/-- One per-key update dict passed to `save_candles`. -/
structure UpdateData where
  open_ : Option Price
  high : Option Price
  low : Option Price
  close : Option Price
  volume : Option Price
  minute_candle_ids : Option (List Int)
deriving DecidableEq

/-- Python's `max(a, b) if a is not None and b is not None else (a if a is
not None else b)` — the `high` merge of `save_candles`. -/
def optMax (a b : Option Price) : Option Price :=
  match a, b with
  | some x, some y => some (max x y)
  | some x, none => some x
  | none, y => y

/-- The `low` merge of `save_candles` (same null handling, with `min`). -/
def optMin (a b : Option Price) : Option Price :=
  match a, b with
  | some x, some y => some (min x y)
  | some x, none => some x
  | none, y => y

/-- The `minute_candle_ids` merge: Python builds `set(c.minute_candle_ids or
[])`, inserts every new id, and materialises `list(...)`; only the underlying
id set is meaningful (Python's set order is unspecified), modelled as
first-occurrence dedup of the old list followed by the unseen new ids. -/
def mergeMids (oldIds mids : List Int) : List Int :=
  mids.foldl (fun acc mid => if mid ∈ acc then acc else acc ++ [mid]) oldIds.dedup

/-- The merge of one incoming update into an existing row
(`save_candles`, the `if (aid, ts) in existing` branch):
`open` fills only when previously null and the incoming value is non-null;
`high`/`low` widen with null tolerance; `close` is replaced by the incoming
value (every call site's dict carries the `close` key); volume replaces in
`snapshot` mode and adds (None-as-0) in `delta` mode; minute ids are
set-unioned, skipped when the incoming list is absent or empty (falsy). -/
def mergeRow (snapshot : Bool) (c : Row) (d : UpdateData) : Row :=
  { open_ :=
      match c.open_ with
      | some x => some x
      | none => d.open_
    high := optMax c.high d.high
    low := optMin c.low d.low
    close := d.close
    volume :=
      if snapshot then some (d.volume.getD 0)
      else some (c.volume.getD 0 + d.volume.getD 0)
    minute_candle_ids :=
      match d.minute_candle_ids with
      | none => c.minute_candle_ids
      | some mids =>
          if mids = [] then c.minute_candle_ids
          else some (mergeMids (c.minute_candle_ids.getD []) mids) }

/-- The row created when no existing row matches the key
(`save_candles`, the `else` branch building `Candle(...)`). -/
def newRow (d : UpdateData) : Row :=
  { open_ := d.open_, high := d.high, low := d.low, close := d.close,
    volume := some (d.volume.getD 0), minute_candle_ids := d.minute_candle_ids }

/-- Merge-or-create for one key of a `save_candles` call. -/
def saveKey (snapshot : Bool) (existing : Option Row) (d : UpdateData) : Row :=
  match existing with
  | some c => mergeRow snapshot c d
  | none => newRow d

/-- A (asset id, bucket timestamp) candle key. -/
abbrev Key := AssetId × Ts

/-- The candle table, keyed by the unique (asset, timestamp, timeframe). -/
abbrev Store := List ((AssetId × Ts × String) × Row)

/-- The existing-row lookup of `save_candles` / the unique-key constraint. -/
def lookupRow (s : Store) (aid : AssetId) (ts : Ts) (tf : String) : Option Row :=
  assocGet s (aid, ts, tf)

/-- `CandleRepository.save_candles(timeframe, updates, write_mode)`:
fetches existing rows for the key set against the state at call entry, then
merges each update into its fetched row (scheduling a bulk update) or
creates a new row (bulk create with conflict-ignore); the transaction
applies them all.  `snapshot` is `write_mode == "snapshot"`.  The
`except`-and-log failure path (storage errors swallowed) is the happy-path
complement and is not modelled.  Update dicts have unique keys, so
row-by-row application of the precomputed merges equals the bulk apply. -/
def save_candles (tf : String) (updates : List (Key × UpdateData)) (snapshot : Bool)
    (s : Store) : Store :=
  if updates = [] then s
  else
    (updates.map (fun kd =>
        (kd.1, saveKey snapshot (lookupRow s kd.1.1 kd.1.2 tf) kd.2))).foldl
      (fun st kr => assocUpd st (kr.1.1, kr.1.2, tf) kr.2) s

/-- A row of the 1-minute id lookup (`values_list("asset_id", "timestamp",
"id")` source columns plus the timeframe the query filters on). -/
structure IdRow where
  asset_id : AssetId
  timestamp : Ts
  timeframe : String
  id : Int
deriving DecidableEq

/-- `CandleRepository.fetch_minute_ids(recent_minute_keys)`: empty input
short-circuits; otherwise filters the candle table by
`asset_id__in={k[0]}`, `timestamp__in=[k[1]]`, `timeframe="1T"` — the two
projections independently, i.e. a cross-product of the input key's
coordinates — and builds the `(asset_id, timestamp) -> id` dict. -/
def fetch_minute_ids (db : List IdRow) (keys : List Key) : List (Key × Int) :=
  if keys = [] then []
  else
    (db.filter (fun c =>
      c.asset_id ∈ (keys.map Prod.fst).dedup ∧ c.timestamp ∈ keys.map Prod.snd ∧
        c.timeframe = TF_1T)).foldl
      (fun out c => assocUpd out (c.asset_id, c.timestamp) c.id) []

/-! ## TimeframeAggregator (`apps/core/services/websocket/aggregator.py`)

The in-memory accumulator maps `(asset_id, bucket_ts)` to a five-field OHLCV
dict.  Incoming `m1_map` entries have the same shape, so one structure
models both.  `high`/`low`/`close` are non-null in every dict the client
feeds the aggregator (trade folding always sets them; Python's `max(None,·)`
would raise otherwise), while `open`/`volume` may be `None`.  The client
additionally attaches a `minute_candle_ids` list to accumulator entries; no
claim depends on it and it is not modelled here. -/

/-- An accumulator entry / incoming 1-minute bar dict. -/
structure AccEntry where
  open_ : Option Price
  high : Price
  low : Price
  close : Price
  volume : Option Price
deriving DecidableEq

/-- A per-timeframe accumulator (`self._tf_acc[tf]`). -/
abbrev Acc := List (Key × AccEntry)

/-- The in-memory merge of a fresh 1-minute bar into an existing accumulator
entry (`rollup_from_minutes`, the `else` branch): `open` fills only when
previously null; `high`/`low` widen; `close` replaces; volume adds
(None-as-0).  The `if key not in acc` branch copies the bar verbatim. -/
def rollupMerge (c d : AccEntry) : AccEntry :=
  { open_ :=
      match c.open_ with
      | some x => some x
      | none => d.open_
    high := max c.high d.high
    low := min c.low d.low
    close := d.close
    volume := some (c.volume.getD 0 + d.volume.getD 0) }

/-- One `repo.save_candles(tf, updates, write_mode=...)` invocation issued by
the aggregator (`snapshot = true` ↔ `write_mode="snapshot"`). -/
structure SaveCall where
  timeframe : String
  updates : List (Key × AccEntry)
  snapshot : Bool
deriving DecidableEq

/-- The aggregator's mutable state: `self._tf_acc` and
`self._last_open_flush`. -/
structure AggState where
  tf_acc : List (String × Acc)
  last_open_flush : List (String × ℚ)
deriving DecidableEq

/-- `self._tf_acc.get(tf, {})`. -/
def lookupAcc (st : AggState) (tf : String) : Acc :=
  (assocGet st.tf_acc tf).getD []

/-- `self._last_open_flush.get(tf, 0.0)`. -/
def lastFlush (st : AggState) (tf : String) : ℚ :=
  (assocGet st.last_open_flush tf).getD 0

/-- The store calls one iteration of the per-timeframe loop of
`TimeframeAggregator.persist_open` issues, as a function of the two state
lookups it reads (`last = self._last_open_flush.get(tf, 0.0)`,
`acc = self._tf_acc.get(tf, {})`): skip `1T` and empty key sets
(`continue`); skip while the per-timeframe throttle interval has not
elapsed (`now - last < secs`); collect every touched key whose bucket is
still open (`end_ts > latest_m1`) and whose backfill gate holds and which
has accumulator data (entries are non-empty dicts, so `if data:` is
presence); when anything was collected, write it in one snapshot-mode store
call.  The `none` arm of the config lookup mirrors that `self.tf_cfg[tf]`
would raise `KeyError` (unreachable: callers only touch configured
timeframes). -/
def persistOpenCalls (cfg : List (String × Nat))
    (complete : AssetId → String → Ts → Bool) (secs now : ℚ) (latest : Ts)
    (last : ℚ) (acc : Acc) (tf : String) (keys : List Key) : List SaveCall :=
  if tf = TF_1T ∨ keys = [] then []
  else if now - last < secs then []
  else
    match assocGet cfg tf with
    | none => []
    | some delta =>
      if keys.filterMap (fun k =>
          if latest < k.2 + delta ∧ complete k.1 tf k.2 then
            (assocGet acc k).map (fun d => (k, d))
          else none) = [] then []
      else [{ timeframe := tf,
              updates := keys.filterMap (fun k =>
                if latest < k.2 + delta ∧ complete k.1 tf k.2 then
                  (assocGet acc k).map (fun d => (k, d))
                else none),
              snapshot := true }]

/-- One iteration of the per-timeframe loop of
`TimeframeAggregator.persist_open`: the issued store calls (at most one) per
`persistOpenCalls`, and the state update — `self._last_open_flush[tf] = now`
is recorded exactly when a write was issued (`if to_persist:`), the
accumulator is never touched. -/
def persistOpenTF (cfg : List (String × Nat)) (complete : AssetId → String → Ts → Bool)
    (secs now : ℚ) (latest : Ts) (st : AggState) (tf : String) (keys : List Key) :
    List SaveCall × AggState :=
  let calls := persistOpenCalls cfg complete secs now latest (lastFlush st tf)
    (lookupAcc st tf) tf keys
  (calls,
   if calls = [] then st
   else { st with last_open_flush := assocUpd st.last_open_flush tf now })

/-- The fold step of `persist_open` over the touched timeframes:
accumulates the issued store calls in order and threads the state. -/
def persistStep (cfg : List (String × Nat)) (complete : AssetId → String → Ts → Bool)
    (secs now : ℚ) (latest : Ts) (acc : List SaveCall × AggState)
    (e : String × List Key) : List SaveCall × AggState :=
  let r := persistOpenTF cfg complete secs now latest acc.2 e.1 e.2
  (acc.1 ++ r.1, r.2)

/-- `TimeframeAggregator.persist_open(touched_by_tf, latest_m1)`:
iterates the touched timeframes, returning the issued store calls in order
and the updated aggregator state.  `complete` is
`self.backfill.is_historical_complete`, `secs` is `self._open_flush_secs`,
`now` is `time.time()`. -/
def persist_open (cfg : List (String × Nat)) (complete : AssetId → String → Ts → Bool)
    (touched : List (String × List Key)) (latest : Ts) (secs now : ℚ)
    (st : AggState) : List SaveCall × AggState :=
  touched.foldl (persistStep cfg complete secs now latest) ([], st)

/-- One iteration of the per-entry loop of `flush_closed` for one
timeframe: a bucket whose end time has passed (`end_ts <= latest_m1`) is
popped from the accumulator, and persisted as a single-key snapshot-mode
store call iff the backfill gate holds (popped entries are non-empty
dicts, so `if closed_data:` always passes; the entry's value is unchanged
between snapshot and pop since the loop only removes entries). -/
def flushStep (tf : String) (delta : Nat) (complete : AssetId → String → Ts → Bool)
    (latest : Ts) (r : Acc × List SaveCall) (e : Key × AccEntry) : Acc × List SaveCall :=
  if e.1.2 + delta ≤ latest then
    if complete e.1.1 tf e.1.2 then
      (assocDel r.1 e.1, r.2 ++ [{ timeframe := tf, updates := [e], snapshot := true }])
    else (assocDel r.1 e.1, r.2)
  else r

/-- The per-timeframe loop body of `flush_closed`: walks a snapshot of the
accumulator's items (`list(acc.items())`), popping every closed bucket. -/
def flushClosedAcc (tf : String) (delta : Nat) (complete : AssetId → String → Ts → Bool)
    (latest : Ts) (acc : Acc) : Acc × List SaveCall :=
  acc.foldl (flushStep tf delta complete latest) (acc, [])

/-- The store calls a `flush_closed` pass over one accumulator issues, in
iteration order: one single-key snapshot write per closed, gate-passing
entry (the characterization `flushClosedAcc` is proved to satisfy). -/
def flushCalls (tf : String) (delta : Nat) (complete : AssetId → String → Ts → Bool)
    (latest : Ts) (acc : Acc) : List SaveCall :=
  acc.filterMap (fun e =>
    if e.1.2 + delta ≤ latest ∧ complete e.1.1 tf e.1.2 then
      some { timeframe := tf, updates := [e], snapshot := true }
    else none)

/-- The fold step of `flush_closed` over the configured timeframes: skip
`1T` (`continue`) and empty accumulators (`if not acc: continue`);
otherwise run the per-timeframe eviction pass and store its result. -/
def flushTFStep (complete : AssetId → String → Ts → Bool) (latest : Ts)
    (r : AggState × List SaveCall) (e : String × Nat) : AggState × List SaveCall :=
  if e.1 = TF_1T then r
  else if lookupAcc r.1 e.1 = [] then r
  else
    ({ r.1 with
        tf_acc := assocUpd r.1.tf_acc e.1
          (flushClosedAcc e.1 e.2 complete latest (lookupAcc r.1 e.1)).1 },
     r.2 ++ (flushClosedAcc e.1 e.2 complete latest (lookupAcc r.1 e.1)).2)

/-- `TimeframeAggregator.flush_closed(latest_m1)`: iterates the configured
timeframes, evicting (and conditionally persisting) every fully closed
bucket. -/
def flush_closed (cfg : List (String × Nat)) (complete : AssetId → String → Ts → Bool)
    (latest : Ts) (st : AggState) : AggState × List SaveCall :=
  cfg.foldl (flushTFStep complete latest) (st, [])

/-- All store writes a batch of calls performs for one key of one
timeframe: the (entry, snapshot-mode) pairs sent for `k` under `tf`. -/
def keyWrites (calls : List SaveCall) (tf : String) (k : Key) : List (AccEntry × Bool) :=
  (calls.map (fun w =>
    if w.timeframe = tf then
      (w.updates.filter (fun e => e.1 = k)).map (fun e => (e.2, w.snapshot))
    else [])).flatten

/-! ## BackfillCoordinator (`apps/core/services/backfill_coordinator.py`) -/

/-- The shared coordination state: the asset ids whose short-TTL `queued`
flag is currently live, and the enqueued celery backfill jobs in order. -/
structure CoordState where
  queued : List AssetId
  jobs : List AssetId
deriving DecidableEq

/-- `request_backfill(asset_id, source)`: `cache.add` on the per-asset
`queued` key succeeds iff the flag is not currently live (TTL unexpired —
modelled as membership in `queued`); on success the flag is set and
`fetch_historical_data.delay(asset_id)` is enqueued, returning `True`;
otherwise nothing is enqueued and it returns `False`. -/
def request_backfill (aid : AssetId) (st : CoordState) : Bool × CoordState :=
  if aid ∈ st.queued then (false, st)
  else (true, { queued := st.queued ++ [aid], jobs := st.jobs ++ [aid] })

/-! ## BackfillGuard (`apps/core/services/websocket/backfill.py`) -/

/-- A candle row as seen by `is_historical_complete`'s heuristic queries. -/
structure CandleMeta where
  asset_id : AssetId
  timeframe : String
  timestamp : Int
deriving DecidableEq

/-- The guard's view of candle storage: the rows, plus whether the ORM
raises on access (`fails` — the heuristic queries have no `try/except`). -/
structure BackfillDb where
  rows : List CandleMeta
  fails : Bool

/-- `now.replace(hour=0, minute=0, second=0, microsecond=0)` for an aware
UTC datetime, on epoch seconds. -/
def midnightUTC (now : Int) : Int := now - now % 86400

/-- `BackfillGuard.is_historical_complete(asset_id, timeframe, bucket_ts)`.
`running`/`completed` are the two `cache.get` reads (`.error` = the cache
raised; each read is wrapped in `try/except: pass`, so only an `.ok true`
short-circuits).  The heuristic tier then queries the ORM with no exception
handling: a storage failure there propagates (`.error`).  Otherwise:
no 1-minute row → false; earliest 1-minute row younger than the 4-day
coverage threshold → false; else true iff some row of the target timeframe
is older than the 1-day historical threshold (midnight minus one day).
`bucket_ts` is accepted but unused, as in the source. -/
def is_historical_complete (running completed : Except Unit Bool) (db : BackfillDb)
    (aid : AssetId) (tf : String) (bucket_ts : Int) (now : Int) : Except Unit Bool :=
  match running with
  | Except.ok true => Except.ok false
  | _ =>
  match completed with
  | Except.ok true => Except.ok true
  | _ =>
  if db.fails then Except.error ()
  else
    let m1 := (db.rows.filter (fun c => c.asset_id = aid ∧ c.timeframe = TF_1T)).map
      (fun c => c.timestamp)
    match m1.min? with
    | none => Except.ok false
    | some earliest =>
      if now - 4 * 86400 < earliest then Except.ok false
      else
        Except.ok (db.rows.any (fun c =>
          c.asset_id = aid ∧ c.timeframe = tf ∧ c.timestamp < midnightUTC now - 86400))

/-- The guard's environment for scheduling: the latest 1-minute candle
timestamp per asset (none = no rows) and whether the asset has at least one
`WatchListAsset` row with both `watchlist.is_active` and `is_active` set. -/
structure GuardEnv where
  latest1T : AssetId → Option Int
  hasActiveWla : AssetId → Bool

/-- `self._last_request` (asset id → monotonic seconds of last request). -/
structure GuardState where
  last_request : List (AssetId × ℚ)

/-- `self._last_request.get(asset_id, 0.0)`. -/
def lastReq (gs : GuardState) (aid : AssetId) : ℚ :=
  (assocGet gs.last_request aid).getD 0

/-- `BackfillGuard._maybe_schedule(asset_id, now_s)`: requires the 15-minute
per-asset cooldown elapsed AND at least one active watchlist-asset row;
then invokes `request_backfill` (its boolean result is discarded), records
the cooldown stamp, and returns `True`. -/
def maybeScheduleOne (env : GuardEnv) (aid : AssetId) (now_s : ℚ)
    (gs : GuardState) (cs : CoordState) : Bool × GuardState × CoordState :=
  if 900 ≤ now_s - lastReq gs aid then
    if env.hasActiveWla aid then
      (true, ⟨assocUpd gs.last_request aid now_s⟩, (request_backfill aid cs).2)
    else (false, gs, cs)
  else (false, gs, cs)

/-- Result of `maybe_schedule_for_assets`: the returned `scheduled` set (as
an ordered list), the log of `request_backfill` invocations, and the updated
guard and coordinator states. -/
structure ScheduleResult where
  scheduled : List AssetId
  calls : List AssetId
  guard : GuardState
  coord : CoordState

/-- One iteration of the per-asset loop of `maybe_schedule_for_assets`:
when the asset has no 1-minute candle at all, or its latest one is older
than the 5-minute staleness threshold (`age_s > 300`, strict), attempt
`_maybe_schedule` and collect the asset if it returned `True`. -/
def schedStep (env : GuardEnv) (now_s : ℚ) (now_dt : Int) (r : ScheduleResult)
    (aid : AssetId) : ScheduleResult :=
  let stale : Bool :=
    match env.latest1T aid with
    | none => true
    | some ts => decide (300 < now_dt - ts)
  if stale then
    let m := maybeScheduleOne env aid now_s r.guard r.coord
    { scheduled := if m.1 then r.scheduled ++ [aid] else r.scheduled,
      calls := if m.1 then r.calls ++ [aid] else r.calls,
      guard := m.2.1, coord := m.2.2 }
  else r

/-- `BackfillGuard.maybe_schedule_for_assets(asset_ids)`.  `now_s` is
`time.time()`, `now_dt` is `timezone.now()` (epoch seconds).  The per-asset
`except Exception: continue` guard is the happy-path complement and is not
modelled. -/
def maybe_schedule_for_assets (env : GuardEnv) (asset_ids : List AssetId)
    (now_s : ℚ) (now_dt : Int) (gs : GuardState) (cs : CoordState) : ScheduleResult :=
  asset_ids.foldl (schedStep env now_s now_dt) ⟨[], [], gs, cs⟩

/-- Modelled from the spec (the predicate claim C9 asserts for
`maybeScheduleForAssets`): an asset is scheduled exactly when it has no
stored 1-minute candle or its latest 1-minute candle is older than the
5-minute staleness threshold, and the 15-minute per-asset cooldown has
elapsed — with no further condition. -/
def claimedScheduleSet (env : GuardEnv) (asset_ids : List AssetId)
    (now_s : ℚ) (now_dt : Int) (gs : GuardState) : List AssetId :=
  asset_ids.filter (fun aid =>
    (match env.latest1T aid with
     | none => true
     | some ts => decide (300 < now_dt - ts)) &&
    decide (900 ≤ now_s - lastReq gs aid))

/-! ## Theorems -/

theorem assocGet_assocUpd_self {κ ν : Type} [DecidableEq κ] (l : List (κ × ν)) (k : κ)
    (v : ν) : assocGet (assocUpd l k v) k = some v := by
  induction l with
  | nil => simp [assocUpd, assocGet]
  | cons e l ih =>
    by_cases h : e.1 = k
    · simp [assocUpd, h, assocGet]
    · simp [assocUpd, h, assocGet, ih]

theorem assocGet_assocUpd_ne {κ ν : Type} [DecidableEq κ] (l : List (κ × ν)) (k k' : κ)
    (v : ν) (h : k' ≠ k) : assocGet (assocUpd l k v) k' = assocGet l k' := by
  induction l with
  | nil => simp [assocUpd, assocGet, Ne.symm h]
  | cons e l ih =>
    by_cases he : e.1 = k
    · simp [assocUpd, he, assocGet, Ne.symm h]
    · by_cases he' : e.1 = k'
      · simp [assocUpd, he, assocGet, he', h]
      · simp [assocUpd, he, assocGet, he', ih]

theorem assocGet_assocDel_self {κ ν : Type} [DecidableEq κ] (l : List (κ × ν)) (k : κ) :
    assocGet (assocDel l k) k = none := by
  induction l with
  | nil => simp [assocDel, assocGet]
  | cons e l ih =>
    by_cases h : e.1 = k
    · simpa [assocDel, h] using ih
    · simpa [assocDel, assocGet, h] using ih

theorem assocGet_assocDel_ne {κ ν : Type} [DecidableEq κ] (l : List (κ × ν)) (k k' : κ)
    (h : k' ≠ k) : assocGet (assocDel l k) k' = assocGet l k' := by
  induction l with
  | nil => simp [assocDel, assocGet]
  | cons e l ih =>
    by_cases he : e.1 = k
    · simpa [assocDel, he, assocGet, Ne.symm h] using ih
    · by_cases he' : e.1 = k'
      · simp [assocDel, he, assocGet, he', h]
      · simpa [assocDel, he, assocGet, he'] using ih

/-- C4: with no live `queued` flag for the asset, the first `request_backfill`
call sets the flag, enqueues exactly one backfill job, and returns true; a
second call while the flag is still live observes it, enqueues nothing
(state unchanged), and returns false — exactly one job total. -/
theorem request_backfill_idempotent (aid : AssetId) (st : CoordState)
    (h : aid ∉ st.queued) :
    (request_backfill aid st).1 = true ∧
    ((request_backfill aid st).2).jobs = st.jobs ++ [aid] ∧
    aid ∈ ((request_backfill aid st).2).queued ∧
    (request_backfill aid ((request_backfill aid st).2)).1 = false ∧
    (request_backfill aid ((request_backfill aid st).2)).2
      = (request_backfill aid st).2 := by
  simp [request_backfill, h]

/-- C4 witness: the idempotency theorem at a concrete fresh state. -/
theorem request_backfill_idempotent_witness :
    (request_backfill 7 ⟨[], []⟩).1 = true ∧
    ((request_backfill 7 ⟨[], []⟩).2).jobs = [] ++ [7] ∧
    7 ∈ ((request_backfill 7 ⟨[], []⟩).2).queued ∧
    (request_backfill 7 ((request_backfill 7 ⟨[], []⟩).2)).1 = false ∧
    (request_backfill 7 ((request_backfill 7 ⟨[], []⟩).2)).2
      = (request_backfill 7 ⟨[], []⟩).2 :=
  request_backfill_idempotent 7 ⟨[], []⟩ (by decide)

theorem save_candles_single (tf : String) (k : Key) (d : UpdateData) (snap : Bool)
    (s : Store) :
    lookupRow (save_candles tf [(k, d)] snap s) k.1 k.2 tf
      = some (saveKey snap (lookupRow s k.1 k.2 tf) d) := by
  simp [save_candles, lookupRow, assocGet_assocUpd_self]

theorem save_delta_fold_volume (tf : String) (k : Key) (ds : List UpdateData) :
    ∀ (s : Store) (v : ℚ),
      (lookupRow s k.1 k.2 tf).map Row.volume = some (some v) →
      (lookupRow (ds.foldl (fun s d => save_candles tf [(k, d)] false s) s) k.1 k.2
          tf).map Row.volume
        = some (some (v + (ds.map (fun d => d.volume.getD 0)).sum)) := by
  induction ds with
  | nil => intro s v h; simpa using h
  | cons d rest ih =>
    intro s v h
    obtain ⟨c, hc, hvol⟩ : ∃ c, lookupRow s k.1 k.2 tf = some c ∧ c.volume = some v := by
      cases hl : lookupRow s k.1 k.2 tf with
      | none => rw [hl] at h; simp at h
      | some c =>
        refine ⟨c, rfl, ?_⟩
        rw [hl] at h
        simpa using h
    have hstep : lookupRow (save_candles tf [(k, d)] false s) k.1 k.2 tf
        = some (mergeRow false c d) := by
      rw [save_candles_single, hc]; rfl
    have hrec := ih (save_candles tf [(k, d)] false s) (v + d.volume.getD 0)
      (by simp [hstep, mergeRow, hvol])
    simpa [add_assoc] using hrec

/-- C5: starting from a store with no row at the key, a sequence of
delta-mode `save_candles` writes for that key yields a stored volume equal
to the sum of the written volumes (None as 0); and a snapshot-mode write
always sets the stored volume to exactly that write's volume, whatever the
store held before. -/
theorem save_candles_volume_semantics (tf : String) (k : Key) (ds : List UpdateData)
    (s0 : Store) (h0 : lookupRow s0 k.1 k.2 tf = none) (hne : ds ≠ []) :
    (lookupRow (ds.foldl (fun s d => save_candles tf [(k, d)] false s) s0) k.1 k.2
        tf).map Row.volume
      = some (some ((ds.map (fun d => d.volume.getD 0)).sum)) ∧
    ∀ (s : Store) (d : UpdateData),
      (lookupRow (save_candles tf [(k, d)] true s) k.1 k.2 tf).map Row.volume
        = some (some (d.volume.getD 0)) := by
  constructor
  · match ds, hne with
    | d :: rest, _ =>
      have hstep : lookupRow (save_candles tf [(k, d)] false s0) k.1 k.2 tf
          = some (newRow d) := by
        rw [save_candles_single, h0]; rfl
      have hrec := save_delta_fold_volume tf k rest
        (save_candles tf [(k, d)] false s0) (d.volume.getD 0)
        (by simp [hstep, newRow])
      simpa using hrec
  · intro s d
    rw [save_candles_single]
    cases lookupRow s k.1 k.2 tf with
    | none => simp [saveKey, newRow]
    | some c => simp [saveKey, mergeRow]

/-- C5 witness: two delta writes of volumes 2 and 3 into an empty store sum
to 5; a snapshot write of volume 4 onto that store replaces the volume. -/
theorem save_candles_volume_semantics_witness :
    (lookupRow (([⟨none, none, none, none, some 2, none⟩,
          ⟨none, none, none, none, some 3, none⟩] : List UpdateData).foldl
        (fun s d => save_candles "1T" [((1, 60), d)] false s) []) 1 60 "1T").map
        Row.volume
      = some (some (([⟨none, none, none, none, some 2, none⟩,
          ⟨none, none, none, none, some 3, none⟩] : List UpdateData).map
            (fun d => d.volume.getD 0)).sum) ∧
    ∀ (s : Store) (d : UpdateData),
      (lookupRow (save_candles "1T" [((1, 60), d)] true s) 1 60 "1T").map Row.volume
        = some (some (d.volume.getD 0)) :=
  save_candles_volume_semantics "1T" (1, 60)
    [⟨none, none, none, none, some 2, none⟩, ⟨none, none, none, none, some 3, none⟩]
    [] (by decide) (by decide)

theorem foldl_right_comm_perm {α β : Type} (f : β → α → β)
    (hf : ∀ b a a', f (f b a) a' = f (f b a') a) :
    ∀ {l l' : List α}, l.Perm l' → ∀ b : β, l.foldl f b = l'.foldl f b := by
  intro l l' p
  induction p with
  | nil => intro b; rfl
  | cons x _ ih => intro b; simpa using ih (f b x)
  | swap x y l => intro b; simp [List.foldl, hf]
  | trans _ _ ih1 ih2 => intro b; rw [ih1, ih2]

theorem rollup_foldl_high (ds : List AccEntry) :
    ∀ c : AccEntry, (ds.foldl rollupMerge c).high
      = ds.foldl (fun a d => max a d.high) c.high := by
  induction ds with
  | nil => intro c; rfl
  | cons d rest ih =>
    intro c
    simp only [List.foldl_cons]
    exact ih (rollupMerge c d)

theorem rollup_foldl_low (ds : List AccEntry) :
    ∀ c : AccEntry, (ds.foldl rollupMerge c).low
      = ds.foldl (fun a d => min a d.low) c.low := by
  induction ds with
  | nil => intro c; rfl
  | cons d rest ih =>
    intro c
    simp only [List.foldl_cons]
    exact ih (rollupMerge c d)

theorem mergeRow_foldl_high (snap : Bool) (ds : List UpdateData) :
    ∀ c : Row, (ds.foldl (mergeRow snap) c).high
      = ds.foldl (fun a d => optMax a d.high) c.high := by
  induction ds with
  | nil => intro c; rfl
  | cons d rest ih =>
    intro c
    simp only [List.foldl_cons]
    exact ih (mergeRow snap c d)

theorem mergeRow_foldl_low (snap : Bool) (ds : List UpdateData) :
    ∀ c : Row, (ds.foldl (mergeRow snap) c).low
      = ds.foldl (fun a d => optMin a d.low) c.low := by
  induction ds with
  | nil => intro c; rfl
  | cons d rest ih =>
    intro c
    simp only [List.foldl_cons]
    exact ih (mergeRow snap c d)

theorem optMax_right_comm (b a a' : Option Price) :
    optMax (optMax b a) a' = optMax (optMax b a') a := by
  cases b with
  | none => cases a <;> cases a' <;> simp [optMax, max_comm]
  | some x =>
    cases a with
    | none => cases a' <;> simp [optMax]
    | some y =>
      cases a' with
      | none => simp [optMax]
      | some z =>
        simp only [optMax]
        rw [Max.right_comm]

theorem optMin_right_comm (b a a' : Option Price) :
    optMin (optMin b a) a' = optMin (optMin b a') a := by
  cases b with
  | none => cases a <;> cases a' <;> simp [optMin, min_comm]
  | some x =>
    cases a with
    | none => cases a' <;> simp [optMin]
    | some y =>
      cases a' with
      | none => simp [optMin]
      | some z =>
        simp only [optMin]
        rw [min_right_comm]

/-- C6: across any sequence of merges into one bucket — both the in-memory
rollup merge and the store-row merge, in either write mode — the resulting
high equals the maximum of the initial high and every merged input high and
the low the minimum (with null tolerance in the store merge), independent
of arrival order; a single merge never decreases high nor increases low. -/
theorem highlow_merge_monotone :
    (∀ (c : AccEntry) (ds : List AccEntry),
        (ds.foldl rollupMerge c).high = ds.foldl (fun a d => max a d.high) c.high ∧
        (ds.foldl rollupMerge c).low = ds.foldl (fun a d => min a d.low) c.low) ∧
    (∀ (c : AccEntry) (ds ds' : List AccEntry), ds.Perm ds' →
        (ds.foldl rollupMerge c).high = (ds'.foldl rollupMerge c).high ∧
        (ds.foldl rollupMerge c).low = (ds'.foldl rollupMerge c).low) ∧
    (∀ c d : AccEntry, c.high ≤ (rollupMerge c d).high ∧ (rollupMerge c d).low ≤ c.low) ∧
    (∀ (snap : Bool) (c : Row) (ds : List UpdateData),
        (ds.foldl (mergeRow snap) c).high = ds.foldl (fun a d => optMax a d.high) c.high ∧
        (ds.foldl (mergeRow snap) c).low = ds.foldl (fun a d => optMin a d.low) c.low) ∧
    (∀ (snap : Bool) (c : Row) (ds ds' : List UpdateData), ds.Perm ds' →
        (ds.foldl (mergeRow snap) c).high = (ds'.foldl (mergeRow snap) c).high ∧
        (ds.foldl (mergeRow snap) c).low = (ds'.foldl (mergeRow snap) c).low) ∧
    (∀ (snap : Bool) (c : Row) (d : UpdateData),
        (∀ x, c.high = some x → ∃ y, (mergeRow snap c d).high = some y ∧ x ≤ y) ∧
        (∀ x, c.low = some x → ∃ y, (mergeRow snap c d).low = some y ∧ y ≤ x)) := by
  refine ⟨?_, ?_, ?_, ?_, ?_, ?_⟩
  · intro c ds
    exact ⟨rollup_foldl_high ds c, rollup_foldl_low ds c⟩
  · intro c ds ds' p
    constructor
    · rw [rollup_foldl_high, rollup_foldl_high]
      exact foldl_right_comm_perm _ (fun b a a' => Max.right_comm b a.high a'.high) p _
    · rw [rollup_foldl_low, rollup_foldl_low]
      exact foldl_right_comm_perm _ (fun b a a' => min_right_comm b a.low a'.low) p _
  · intro c d
    exact ⟨le_max_left _ _, min_le_left _ _⟩
  · intro snap c ds
    exact ⟨mergeRow_foldl_high snap ds c, mergeRow_foldl_low snap ds c⟩
  · intro snap c ds ds' p
    constructor
    · rw [mergeRow_foldl_high, mergeRow_foldl_high]
      exact foldl_right_comm_perm _ (fun b a a' => optMax_right_comm b a.high a'.high) p _
    · rw [mergeRow_foldl_low, mergeRow_foldl_low]
      exact foldl_right_comm_perm _ (fun b a a' => optMin_right_comm b a.low a'.low) p _
  · intro snap c d
    constructor
    · intro x hx
      cases hd : d.high with
      | none => exact ⟨x, by simp [mergeRow, optMax, hx, hd], le_refl x⟩
      | some z => exact ⟨max x z, by simp [mergeRow, optMax, hx, hd], le_max_left x z⟩
    · intro x hx
      cases hd : d.low with
      | none => exact ⟨x, by simp [mergeRow, optMin, hx, hd], le_refl x⟩
      | some z => exact ⟨min x z, by simp [mergeRow, optMin, hx, hd], min_le_left x z⟩

/-- C6 witness: order independence of a two-merge sequence at concrete
entries, by the permutation clause of the monotonicity theorem. -/
theorem highlow_merge_monotone_witness :
    ((([⟨none, 10, 1, 2, some 1⟩, ⟨none, 7, 0, 9, some 2⟩] : List AccEntry).foldl
          rollupMerge ⟨some 1, 5, 3, 4, some 0⟩).high
      = (([⟨none, 7, 0, 9, some 2⟩, ⟨none, 10, 1, 2, some 1⟩] : List AccEntry).foldl
          rollupMerge ⟨some 1, 5, 3, 4, some 0⟩).high) ∧
    ((([⟨none, 10, 1, 2, some 1⟩, ⟨none, 7, 0, 9, some 2⟩] : List AccEntry).foldl
          rollupMerge ⟨some 1, 5, 3, 4, some 0⟩).low
      = (([⟨none, 7, 0, 9, some 2⟩, ⟨none, 10, 1, 2, some 1⟩] : List AccEntry).foldl
          rollupMerge ⟨some 1, 5, 3, 4, some 0⟩).low) := by
  exact highlow_merge_monotone.2.1 _ _ _ (List.Perm.swap _ _ _)

theorem mergeRow_foldl_close (snap : Bool) (ds : List UpdateData) :
    ∀ (c : Row) (h : ds ≠ []),
      (ds.foldl (mergeRow snap) c).close = (ds.getLast h).close := by
  induction ds with
  | nil => intro c h; exact absurd rfl h
  | cons d rest ih =>
    intro c _
    cases rest with
    | nil => rfl
    | cons d2 rest2 =>
      rw [List.foldl_cons, ih (mergeRow snap c d) (List.cons_ne_nil d2 rest2)]
      simp

theorem rollup_foldl_close (ds : List AccEntry) :
    ∀ (c : AccEntry) (h : ds ≠ []),
      (ds.foldl rollupMerge c).close = (ds.getLast h).close := by
  induction ds with
  | nil => intro c h; exact absurd rfl h
  | cons d rest ih =>
    intro c _
    cases rest with
    | nil => rfl
    | cons d2 rest2 =>
      rw [List.foldl_cons, ih (rollupMerge c d) (List.cons_ne_nil d2 rest2)]
      simp

/-- C7: in both the store-row merge and the in-memory rollup merge, `open`
is written only while previously null — a non-null open is never changed by
later merges — and `close` is replaced by every merge's incoming value, so
after any nonempty merge sequence it equals the last arrival's close. -/
theorem open_once_close_lastwrite :
    (∀ (snap : Bool) (c : Row) (d : UpdateData) (x : Price),
        c.open_ = some x → (mergeRow snap c d).open_ = some x) ∧
    (∀ (snap : Bool) (c : Row) (d : UpdateData),
        c.open_ = none → (mergeRow snap c d).open_ = d.open_) ∧
    (∀ (c d : AccEntry) (x : Price),
        c.open_ = some x → (rollupMerge c d).open_ = some x) ∧
    (∀ c d : AccEntry, c.open_ = none → (rollupMerge c d).open_ = d.open_) ∧
    (∀ (snap : Bool) (c : Row) (ds : List UpdateData) (h : ds ≠ []),
        (ds.foldl (mergeRow snap) c).close = (ds.getLast h).close) ∧
    (∀ (c : AccEntry) (ds : List AccEntry) (h : ds ≠ []),
        (ds.foldl rollupMerge c).close = (ds.getLast h).close) := by
  refine ⟨?_, ?_, ?_, ?_, ?_, ?_⟩
  · intro snap c d x hx; simp [mergeRow, hx]
  · intro snap c d hx; simp [mergeRow, hx]
  · intro c d x hx; simp [rollupMerge, hx]
  · intro c d hx; simp [rollupMerge, hx]
  · intro snap c ds h; exact mergeRow_foldl_close snap ds c h
  · intro c ds h; exact rollup_foldl_close ds c h

/-- C7 witness: the open-fills-once and close-last-write clauses at
concrete rows and a concrete two-update sequence. -/
theorem open_once_close_lastwrite_witness :
    ((mergeRow false ⟨some 3, none, none, none, none, none⟩
        ⟨some 9, none, none, some 1, none, none⟩).open_ = some 3) ∧
    (([⟨some 9, none, none, some 1, none, none⟩,
        ⟨none, none, none, some 2, none, none⟩].foldl (mergeRow false)
        (⟨some 3, none, none, none, none, none⟩ : Row)).close
      = (([⟨some 9, none, none, some 1, none, none⟩,
          ⟨none, none, none, some 2, none, none⟩] : List UpdateData).getLast
          (by decide)).close) :=
  ⟨open_once_close_lastwrite.1 false ⟨some 3, none, none, none, none, none⟩
      ⟨some 9, none, none, some 1, none, none⟩ 3 rfl,
   open_once_close_lastwrite.2.2.2.2.1 false ⟨some 3, none, none, none, none, none⟩
      [⟨some 9, none, none, some 1, none, none⟩, ⟨none, none, none, some 2, none, none⟩]
      (by decide)⟩

theorem assocGet_assocUpd_isSome {κ ν : Type} [DecidableEq κ] (l : List (κ × ν))
    (k k' : κ) (v : ν) :
    (assocGet (assocUpd l k v) k').isSome ↔ k' = k ∨ (assocGet l k').isSome := by
  by_cases h : k' = k
  · subst h; simp [assocGet_assocUpd_self]
  · rw [assocGet_assocUpd_ne l k k' v h]
    simp [h]

theorem fetch_fold_isSome (rows : List IdRow) (k : Key) :
    ∀ init : List (Key × Int),
      (assocGet (rows.foldl (fun out c => assocUpd out (c.asset_id, c.timestamp) c.id)
          init) k).isSome ↔
        (assocGet init k).isSome ∨ ∃ c ∈ rows, (c.asset_id, c.timestamp) = k := by
  induction rows with
  | nil => intro init; simp
  | cons c rest ih =>
    intro init
    rw [List.foldl_cons, ih]
    constructor
    · rintro (h | h)
      · rcases (assocGet_assocUpd_isSome init (c.asset_id, c.timestamp) k c.id).mp h with
          hk | hid
        · exact Or.inr ⟨c, by simp, hk.symm⟩
        · exact Or.inl hid
      · obtain ⟨c', hc', hkc⟩ := h
        exact Or.inr ⟨c', by simp [hc'], hkc⟩
    · rintro (h | ⟨c', hc', hkc⟩)
      · refine Or.inl ?_
        exact (assocGet_assocUpd_isSome init (c.asset_id, c.timestamp) k c.id).mpr
          (Or.inr h)
      · rcases List.mem_cons.mp hc' with hec | hrest
        · subst hec
          refine Or.inl ?_
          exact (assocGet_assocUpd_isSome init (c'.asset_id, c'.timestamp) k
            c'.id).mpr (Or.inl hkc.symm)
        · exact Or.inr ⟨c', hrest, hkc⟩

theorem fetch_fold_get (rows : List IdRow) (k : Key) (i : Int)
    (hval : ∀ c ∈ rows, (c.asset_id, c.timestamp) = k → c.id = i) :
    ∀ init : List (Key × Int),
      (assocGet init k = some i ∨ ∃ c ∈ rows, (c.asset_id, c.timestamp) = k) →
      assocGet (rows.foldl (fun out c => assocUpd out (c.asset_id, c.timestamp) c.id)
          init) k = some i := by
  induction rows with
  | nil =>
    intro init h
    rcases h with h | ⟨c, hc, _⟩
    · simpa using h
    · simp at hc
  | cons c rest ih =>
    intro init h
    rw [List.foldl_cons]
    apply ih (fun c' hc' hk' => hval c' (List.mem_cons_of_mem c hc') hk')
    by_cases hk : (c.asset_id, c.timestamp) = k
    · refine Or.inl ?_
      rw [← hk, assocGet_assocUpd_self]
      exact congrArg some (hval c (List.mem_cons_self c rest) hk)
    · rw [assocGet_assocUpd_ne init _ k c.id (fun hh => hk hh.symm)]
      rcases h with h | ⟨c', hc', hkc⟩
      · exact Or.inl h
      · rcases List.mem_cons.mp hc' with hec | hrest
        · subst hec; exact absurd hkc hk
        · exact Or.inr ⟨c', hrest, hkc⟩

/-- C10: the domain of the map returned by `fetch_minute_ids(keys)` is the
cross product of the requested asset-id and timestamp projections
intersected with the stored 1-minute rows — not the requested key set:
every requested key backed by a stored 1-minute row maps to its row id, but
a two-element request can also return keys that were never requested.
Concretely, requesting [(1,10),(2,20)] against a store holding a 1-minute
row at (1,20) returns the unrequested key (1,20). -/
theorem fetch_minute_ids_cross_product (db : List IdRow) (keys : List Key)
    (huniq : ∀ c ∈ db, ∀ c' ∈ db, c.asset_id = c'.asset_id →
        c.timestamp = c'.timestamp → c.timeframe = c'.timeframe → c.id = c'.id) :
    (∀ a t, (assocGet (fetch_minute_ids db keys) (a, t)).isSome ↔
        a ∈ keys.map Prod.fst ∧ t ∈ keys.map Prod.snd ∧
        ∃ c ∈ db, c.asset_id = a ∧ c.timestamp = t ∧ c.timeframe = TF_1T) ∧
    (∀ a t (c : IdRow), c ∈ db → c.asset_id = a → c.timestamp = t →
        c.timeframe = TF_1T → a ∈ keys.map Prod.fst → t ∈ keys.map Prod.snd →
        assocGet (fetch_minute_ids db keys) (a, t) = some c.id) ∧
    (fetch_minute_ids [⟨1, 20, TF_1T, 99⟩] [(1, 10), (2, 20)] = [((1, 20), 99)] ∧
        ((1 : AssetId), (20 : Ts)) ∉ ([(1, 10), (2, 20)] : List Key)) := by
  refine ⟨?_, ?_, by decide, by decide⟩
  · intro a t
    by_cases hk : keys = []
    · subst hk
      simp [fetch_minute_ids, assocGet]
    · rw [fetch_minute_ids, if_neg hk, fetch_fold_isSome]
      simp only [assocGet, Option.isSome_none, Bool.false_eq_true, false_or,
        List.mem_filter, decide_eq_true_eq, List.mem_dedup]
      constructor
      · rintro ⟨c, ⟨hcdb, ha, ht, htf⟩, hkey⟩
        have h1 : c.asset_id = a := congrArg Prod.fst hkey
        have h2 : c.timestamp = t := congrArg Prod.snd hkey
        exact ⟨h1 ▸ ha, h2 ▸ ht, c, hcdb, h1, h2, htf⟩
      · rintro ⟨ha, ht, c, hcdb, h1, h2, htf⟩
        exact ⟨c, ⟨hcdb, h1 ▸ ha, h2 ▸ ht, htf⟩, by rw [h1, h2]⟩
  · intro a t c hcdb h1 h2 htf ha ht
    have hk : keys ≠ [] := by
      intro hkeq
      rw [hkeq] at ha
      simp at ha
    rw [fetch_minute_ids, if_neg hk]
    apply fetch_fold_get
    · intro c' hc' hk'
      have hc'db : c' ∈ db ∧ c'.timeframe = TF_1T := by
        have := List.mem_filter.mp hc'
        refine ⟨this.1, ?_⟩
        have hp := of_decide_eq_true this.2
        exact hp.2.2
      injection hk' with hk'1 hk'2
      apply huniq c' hc'db.1 c hcdb
      · rw [hk'1, h1]
      · rw [hk'2, h2]
      · rw [hc'db.2, htf]
    · refine Or.inr ⟨c, ?_, by rw [h1, h2]⟩
      rw [List.mem_filter]
      refine ⟨hcdb, ?_⟩
      apply decide_eq_true
      exact ⟨by rw [h1]; simpa using ha, by rw [h2]; exact ht, htf⟩

/-- C10 witness: the theorem at a concrete one-row store and two-key
request, demonstrating both the requested-key lookup and the unrequested
cross-product key. -/
theorem fetch_minute_ids_cross_product_witness :
    assocGet (fetch_minute_ids [⟨1, 20, TF_1T, 99⟩] [(1, 10), (2, 20)]) (1, 20)
      = some (⟨1, 20, TF_1T, 99⟩ : IdRow).id ∧
    ((1 : AssetId), (20 : Ts)) ∉ ([(1, 10), (2, 20)] : List Key) :=
  ⟨(fetch_minute_ids_cross_product [⟨1, 20, TF_1T, 99⟩] [(1, 10), (2, 20)]
      (by decide)).2.1 1 20 ⟨1, 20, TF_1T, 99⟩ (by decide) rfl rfl rfl (by decide)
      (by decide),
   (fetch_minute_ids_cross_product [⟨1, 20, TF_1T, 99⟩] [(1, 10), (2, 20)]
      (by decide)).2.2.2⟩

theorem sched_fold_spec (env : GuardEnv) (now_s : ℚ) (now_dt : Int) (gs : GuardState) :
    ∀ (l : List AssetId) (r : ScheduleResult), l.Nodup →
      (∀ aid ∈ l, lastReq r.guard aid = lastReq gs aid) →
      (l.foldl (schedStep env now_s now_dt) r).scheduled
          = r.scheduled ++ l.filter (fun aid =>
              (match env.latest1T aid with
               | none => true
               | some ts => decide (300 < now_dt - ts)) &&
              (decide (900 ≤ now_s - lastReq gs aid) && env.hasActiveWla aid)) ∧
      (l.foldl (schedStep env now_s now_dt) r).calls
          = r.calls ++ l.filter (fun aid =>
              (match env.latest1T aid with
               | none => true
               | some ts => decide (300 < now_dt - ts)) &&
              (decide (900 ≤ now_s - lastReq gs aid) && env.hasActiveWla aid)) := by
  intro l
  induction l with
  | nil => intro r _ _; simp
  | cons aid rest ih =>
    intro r hnd hagree
    obtain ⟨rs, rc, rg, rco⟩ := r
    have hndr : rest.Nodup := (List.nodup_cons.mp hnd).2
    have hnm : aid ∉ rest := (List.nodup_cons.mp hnd).1
    have hag : lastReq rg aid = lastReq gs aid := hagree aid (by simp)
    rw [List.foldl_cons]
    by_cases hstale : (match env.latest1T aid with
        | none => true
        | some ts => decide (300 < now_dt - ts)) = true
    · by_cases hcool : (900 : ℚ) ≤ now_s - lastReq rg aid
      · by_cases hw : env.hasActiveWla aid = true
        · have hstep : schedStep env now_s now_dt ⟨rs, rc, rg, rco⟩ aid =
              ⟨rs ++ [aid], rc ++ [aid], ⟨assocUpd rg.last_request aid now_s⟩,
                (request_backfill aid rco).2⟩ := by
            simp [schedStep, maybeScheduleOne, hstale, hcool, hw]
          rw [hstep]
          have hagrest : ∀ x ∈ rest,
              lastReq (⟨assocUpd rg.last_request aid now_s⟩ : GuardState) x
                = lastReq gs x := by
            intro x hx
            have hxne : x ≠ aid := fun hh => hnm (hh ▸ hx)
            show (assocGet (assocUpd rg.last_request aid now_s) x).getD 0 = lastReq gs x
            rw [assocGet_assocUpd_ne _ _ _ _ hxne]
            exact hagree x (List.mem_cons_of_mem aid hx)
          obtain ⟨h1, h2⟩ := ih ⟨rs ++ [aid], rc ++ [aid],
            ⟨assocUpd rg.last_request aid now_s⟩, (request_backfill aid rco).2⟩
            hndr hagrest
          rw [h1, h2]
          have hpred : ((match env.latest1T aid with
              | none => true
              | some ts => decide (300 < now_dt - ts)) &&
              (decide (900 ≤ now_s - lastReq gs aid) && env.hasActiveWla aid)) = true := by
            rw [← hag]
            simp [hstale, hcool, hw]
          simp [List.filter_cons, hpred]
        · have hw' : env.hasActiveWla aid = false := by
            rw [Bool.eq_false_iff]; exact hw
          have hstep : schedStep env now_s now_dt ⟨rs, rc, rg, rco⟩ aid
              = ⟨rs, rc, rg, rco⟩ := by
            simp [schedStep, maybeScheduleOne, hstale, hcool, hw']
          rw [hstep]
          obtain ⟨h1, h2⟩ := ih ⟨rs, rc, rg, rco⟩ hndr
            (fun x hx => hagree x (List.mem_cons_of_mem aid hx))
          rw [h1, h2]
          have hpred : ((match env.latest1T aid with
              | none => true
              | some ts => decide (300 < now_dt - ts)) &&
              (decide (900 ≤ now_s - lastReq gs aid) && env.hasActiveWla aid)) = false := by
            simp [hw']
          simp [List.filter_cons, hpred]
      · have hstep : schedStep env now_s now_dt ⟨rs, rc, rg, rco⟩ aid
            = ⟨rs, rc, rg, rco⟩ := by
          simp [schedStep, maybeScheduleOne, hstale, hcool]
        rw [hstep]
        obtain ⟨h1, h2⟩ := ih ⟨rs, rc, rg, rco⟩ hndr
          (fun x hx => hagree x (List.mem_cons_of_mem aid hx))
        rw [h1, h2]
        have hpred : ((match env.latest1T aid with
            | none => true
            | some ts => decide (300 < now_dt - ts)) &&
            (decide (900 ≤ now_s - lastReq gs aid) && env.hasActiveWla aid)) = false := by
          rw [← hag]
          simp [hcool]
        simp [List.filter_cons, hpred]
    · have hstale' : (match env.latest1T aid with
          | none => true
          | some ts => decide (300 < now_dt - ts)) = false := by
        rw [Bool.eq_false_iff]; exact hstale
      have hstep : schedStep env now_s now_dt ⟨rs, rc, rg, rco⟩ aid
          = ⟨rs, rc, rg, rco⟩ := by
        simp [schedStep, hstale']
      rw [hstep]
      obtain ⟨h1, h2⟩ := ih ⟨rs, rc, rg, rco⟩ hndr
        (fun x hx => hagree x (List.mem_cons_of_mem aid hx))
      rw [h1, h2]
      simp [List.filter_cons, hstale']

/-- C9 (counterexample): an asset with no stored 1-minute candle and an
elapsed cooldown is nevertheless NOT scheduled when it has no active
watchlist-asset row: `_maybe_schedule` additionally requires
`WatchListAsset.objects.filter(watchlist__is_active=True, is_active=True,
asset_id=...)` to be non-empty, a condition the claim omits.  The code
returns the empty set where the claimed predicate yields `{7}`. -/
theorem maybe_schedule_requires_watchlist :
    (maybe_schedule_for_assets ⟨fun _ => none, fun _ => false⟩ [7] 10000 0 ⟨[]⟩
        ⟨[], []⟩).scheduled = [] ∧
    claimedScheduleSet ⟨fun _ => none, fun _ => false⟩ [7] 10000 0 ⟨[]⟩ = [7] := by
  constructor
  · norm_num [maybe_schedule_for_assets, schedStep, maybeScheduleOne, lastReq, assocGet]
  · norm_num [claimedScheduleSet, lastReq, assocGet]

/-- C9 (amended): `maybeScheduleForAssets(assetIds)` calls `requestBackfill`
for an asset exactly when (it has no stored 1-minute candle, or its latest
1-minute candle is older than the 5-minute staleness threshold) AND the
15-minute per-asset cooldown has elapsed AND the asset belongs to at least
one active watchlist entry; the returned set is exactly the subset of
assetIds for which `requestBackfill` was invoked (the invocation's own
boolean result is discarded, so an already-queued asset is still counted). -/
theorem maybe_schedule_spec (env : GuardEnv) (asset_ids : List AssetId)
    (now_s : ℚ) (now_dt : Int) (gs : GuardState) (cs : CoordState)
    (hnd : asset_ids.Nodup) :
    (maybe_schedule_for_assets env asset_ids now_s now_dt gs cs).scheduled
      = asset_ids.filter (fun aid =>
          (match env.latest1T aid with
           | none => true
           | some ts => decide (300 < now_dt - ts)) &&
          (decide (900 ≤ now_s - lastReq gs aid) && env.hasActiveWla aid)) ∧
    (maybe_schedule_for_assets env asset_ids now_s now_dt gs cs).calls
      = (maybe_schedule_for_assets env asset_ids now_s now_dt gs cs).scheduled := by
  obtain ⟨h1, h2⟩ := sched_fold_spec env now_s now_dt gs asset_ids ⟨[], [], gs, cs⟩ hnd
    (fun _ _ => rfl)
  refine ⟨?_, ?_⟩
  · simpa [maybe_schedule_for_assets] using h1
  · simp only [maybe_schedule_for_assets] at h1 h2 ⊢
    rw [h1, h2]

/-- C9 witness: the amended characterization at one stale asset with an
active watchlist row and elapsed cooldown — it is scheduled, and the
`requestBackfill` call log equals the returned set. -/
theorem maybe_schedule_spec_witness :
    (maybe_schedule_for_assets ⟨fun _ => none, fun _ => true⟩ [3] 10000 0 ⟨[]⟩
        ⟨[], []⟩).scheduled
      = ([3] : List AssetId).filter (fun aid =>
          (match (fun (_ : AssetId) => (none : Option Int)) aid with
           | none => true
           | some ts => decide (300 < (0 : Int) - ts)) &&
          (decide ((900 : ℚ) ≤ 10000 - lastReq ⟨[]⟩ aid) &&
            (fun (_ : AssetId) => true) aid)) ∧
    (maybe_schedule_for_assets ⟨fun _ => none, fun _ => true⟩ [3] 10000 0 ⟨[]⟩
        ⟨[], []⟩).calls
      = (maybe_schedule_for_assets ⟨fun _ => none, fun _ => true⟩ [3] 10000 0 ⟨[]⟩
        ⟨[], []⟩).scheduled :=
  maybe_schedule_spec ⟨fun _ => none, fun _ => true⟩ [3] 10000 0 ⟨[]⟩ ⟨[], []⟩
    (by decide)

/-- C3 (counterexample): a storage error while evaluating the heuristic tier
does NOT yield `false` — it propagates.  With both cache flags readable and
unset and the ORM failing, `is_historical_complete` raises (models
`Except.error ()`), which is not the claimed result `false`: the heuristic
queries in `backfill.py` have no `try/except`, unlike the two cache reads. -/
theorem is_historical_complete_heuristic_error_propagates :
    is_historical_complete (Except.ok false) (Except.ok false) ⟨[], true⟩ 1 "5T" 0 1000
      = Except.error () ∧
    (Except.error () : Except Unit Bool) ≠ Except.ok false := by
  exact ⟨rfl, fun h => Except.noConfusion h⟩

theorem heuristic_m1_mem (db : BackfillDb) (aid : AssetId) (t : Int) :
    (t ∈ (db.rows.filter (fun c => c.asset_id = aid ∧ c.timeframe = TF_1T)).map
        (fun c => c.timestamp)) ↔
      ∃ c ∈ db.rows, c.asset_id = aid ∧ c.timeframe = TF_1T ∧ c.timestamp = t := by
  simp only [List.mem_map, List.mem_filter, decide_eq_true_eq]
  constructor
  · rintro ⟨c, ⟨hc, h1, h2⟩, h3⟩
    exact ⟨c, hc, h1, h2, h3⟩
  · rintro ⟨c, hc, h1, h2, h3⟩
    exact ⟨c, ⟨hc, h1, h2⟩, h3⟩

/-- C3 (amended): the three tiers are evaluated in strict order — a live
`running` flag forces `false` even when `completed` is also set; otherwise a
live `completed` flag forces `true`; otherwise the result is the heuristic:
some 1-minute row at least 4 days old AND some row of the target timeframe
older than the 1-day historical threshold.  A cache error on either flag
read falls through to the next tier, but a storage error while evaluating
the heuristic PROPAGATES (it is not converted to `false`): only the two
cache reads are exception-guarded. -/
theorem int_min?_spec {l : List Int} {a : Int} (h : l.min? = some a) :
    a ∈ l ∧ ∀ b ∈ l, a ≤ b := by
  refine ⟨List.min?_mem (fun x y => min_choice x y) h, ?_⟩
  intro b hb
  exact (List.le_min?_iff (fun x y z => le_min_iff) h).mp le_rfl b hb

theorem is_historical_complete_fallthrough (running completed : Except Unit Bool)
    (db : BackfillDb) (aid : AssetId) (tf : String) (bts now : Int)
    (hr : running ≠ Except.ok true) (hc : completed ≠ Except.ok true) :
    is_historical_complete running completed db aid tf bts now =
      (if db.fails then Except.error ()
       else
         match ((db.rows.filter (fun c => c.asset_id = aid ∧ c.timeframe = TF_1T)).map
             (fun c => c.timestamp)).min? with
         | none => Except.ok false
         | some earliest =>
           if now - 4 * 86400 < earliest then Except.ok false
           else
             Except.ok (db.rows.any (fun c =>
               c.asset_id = aid ∧ c.timeframe = tf ∧
                 c.timestamp < midnightUTC now - 86400))) := by
  rcases running with u | b
  · rcases completed with u' | b'
    · rfl
    · cases b'
      · rfl
      · exact absurd rfl hc
  · cases b
    · rcases completed with u' | b'
      · rfl
      · cases b'
        · rfl
        · exact absurd rfl hc
    · exact absurd rfl hr

theorem is_historical_complete_tiers (running completed : Except Unit Bool)
    (db : BackfillDb) (aid : AssetId) (tf : String) (bts now : Int) :
    (running = Except.ok true →
        is_historical_complete running completed db aid tf bts now = Except.ok false) ∧
    (running ≠ Except.ok true → completed = Except.ok true →
        is_historical_complete running completed db aid tf bts now = Except.ok true) ∧
    (running ≠ Except.ok true → completed ≠ Except.ok true → db.fails = true →
        is_historical_complete running completed db aid tf bts now = Except.error ()) ∧
    (running ≠ Except.ok true → completed ≠ Except.ok true → db.fails = false →
        (is_historical_complete running completed db aid tf bts now = Except.ok true ↔
          (∃ c ∈ db.rows, c.asset_id = aid ∧ c.timeframe = TF_1T ∧
              c.timestamp ≤ now - 4 * 86400) ∧
          (∃ c ∈ db.rows, c.asset_id = aid ∧ c.timeframe = tf ∧
              c.timestamp < midnightUTC now - 86400))) ∧
    (running ≠ Except.ok true → completed ≠ Except.ok true → db.fails = false →
        is_historical_complete running completed db aid tf bts now
          ≠ Except.error ()) := by
  refine ⟨?_, ?_, ?_, ?_, ?_⟩
  · intro h; rw [h]; rfl
  · intro hr hc
    rcases running with u | b
    · rw [hc]; rfl
    · cases b
      · rw [hc]; rfl
      · exact absurd rfl hr
  · intro hr hc hf
    rw [is_historical_complete_fallthrough running completed db aid tf bts now hr hc,
      if_pos hf]
  · intro hr hc hf
    rw [is_historical_complete_fallthrough running completed db aid tf bts now hr hc,
      if_neg (by simp [hf])]
    split
    next hm =>
      rw [List.min?_eq_none_iff] at hm
      constructor
      · intro h
        exact absurd h (by simp)
      · rintro ⟨⟨c, hc1, hc2, hc3, _⟩, _⟩
        have hmem := (heuristic_m1_mem db aid c.timestamp).mpr ⟨c, hc1, hc2, hc3, rfl⟩
        rw [hm] at hmem
        simp at hmem
    next earliest hm =>
      have hiff := int_min?_spec hm
      by_cases hcov : now - 4 * 86400 < earliest
      · rw [if_pos hcov]
        constructor
        · intro h
          exact absurd h (by simp)
        · rintro ⟨⟨c, hc1, hc2, hc3, hc4⟩, _⟩
          have hmem := (heuristic_m1_mem db aid c.timestamp).mpr ⟨c, hc1, hc2, hc3, rfl⟩
          have := hiff.2 c.timestamp hmem
          omega
      · rw [if_neg hcov]
        have hA : ∃ c ∈ db.rows, c.asset_id = aid ∧ c.timeframe = TF_1T ∧
            c.timestamp ≤ now - 4 * 86400 := by
          obtain ⟨c, hc1, hc2, hc3, hc4⟩ := (heuristic_m1_mem db aid earliest).mp hiff.1
          exact ⟨c, hc1, hc2, hc3, by omega⟩
        simp only [Except.ok.injEq, List.any_eq_true, decide_eq_true_eq]
        constructor
        · intro h
          refine ⟨hA, ?_⟩
          obtain ⟨c, hc1, hc2⟩ := h
          exact ⟨c, hc1, hc2⟩
        · rintro ⟨_, c, hc1, hc2⟩
          exact ⟨c, hc1, hc2⟩
  · intro hr hc hf
    rw [is_historical_complete_fallthrough running completed db aid tf bts now hr hc,
      if_neg (by simp [hf])]
    split
    next hm => simp
    next earliest hm =>
      by_cases hcov : now - 4 * 86400 < earliest
      · rw [if_pos hcov]; simp
      · rw [if_neg hcov]; simp

/-- C3 witness: the amended tier characterization at a concrete state —
flags unset, storage healthy, one old 1-minute row and one historical 5T
row — evaluates to `true` via the heuristic clause. -/
theorem is_historical_complete_tiers_witness :
    is_historical_complete (Except.ok false) (Except.error ())
        ⟨[⟨1, "1T", 100⟩, ⟨1, "5T", 200⟩], false⟩ 1 "5T" 0 864000 = Except.ok true :=
  ((is_historical_complete_tiers (Except.ok false) (Except.error ())
      ⟨[⟨1, "1T", 100⟩, ⟨1, "5T", 200⟩], false⟩ 1 "5T" 0 864000).2.2.2.1
    (by simp) (by simp) rfl).mpr
    ⟨⟨⟨1, "1T", 100⟩, by simp, rfl, rfl, by decide⟩,
     ⟨⟨1, "5T", 200⟩, by simp, rfl, rfl, by decide⟩⟩

/-- C8 (counterexample): `floor_to_bucket` does NOT align sub-day buckets to
the 09:30 market-open anchor.  At `2023-10-30T14:32:45Z` with a 1-hour
duration the code returns `14:00:00Z` (epoch-aligned), while the spec's
09:30-ET-anchored flooring would return `14:30:00Z` (the anchor is
`13:30:00Z`); the two disagree.  The repository's own test
`test_floor_to_hour_bucket` expects the epoch-aligned `14:00:00Z`. -/
theorem floor_to_bucket_not_anchored :
    floor_to_bucket exTs 3600 = 1698674400 ∧
    floor_to_bucket_anchored exTs exAnchor 3600 = 1698676200 ∧
    floor_to_bucket exTs 3600 ≠ floor_to_bucket_anchored exTs exAnchor 3600 := by
  refine ⟨by decide, by decide, by decide⟩

/-- C8 (amended): `floor_to_bucket` is a pure function of its two arguments
(determinism is inherent in the embedding); for every duration of at least
one minute it aligns the bucket start to epoch-relative boundaries of
`60 * (duration div 60)` seconds — for all durations, sub-day included,
there is no market-open anchoring — and in particular
`floorToBucket(2023-10-30T14:32:45Z, 5 minutes) = 2023-10-30T14:30:00Z`,
since epoch-aligned 5-minute boundaries include every `:30`. -/
theorem floor_to_bucket_epoch_aligned (ts d : Nat) (hd : 60 ≤ d) :
    floor_to_bucket ts d = ts / (60 * (d / 60)) * (60 * (d / 60)) ∧
    floor_to_bucket exTs 300 = exTs5Floor := by
  constructor
  · have hnot : ¬ d / 60 ≤ 0 := by
      have : 1 ≤ d / 60 := (Nat.one_le_div_iff (by norm_num)).mpr hd
      omega
    simp only [floor_to_bucket, if_neg hnot]
    rw [Nat.div_div_eq_div_mul]
    ring
  · decide

theorem filterMap_filter_key {α β : Type} [DecidableEq α] (keys : List α)
    (f : α → Option (α × β)) (hf : ∀ a e, f a = some e → e.1 = a) (k : α) :
    keys.Nodup →
    (keys.filterMap f).filter (fun e => e.1 = k)
      = if k ∈ keys then (f k).toList else [] := by
  induction keys with
  | nil => intro _; simp
  | cons a rest ih =>
    intro hnd
    obtain ⟨hna, hndr⟩ := List.nodup_cons.mp hnd
    rw [List.filterMap_cons]
    cases hfa : f a with
    | none =>
      rw [ih hndr]
      by_cases hak : k = a
      · subst hak
        simp [hna, hfa]
      · simp [List.mem_cons, hak]
    | some e =>
      have hea : e.1 = a := hf a e hfa
      rw [List.filter_cons, ih hndr]
      by_cases hak : k = a
      · subst hak
        rw [if_pos (by simp [hea])]
        simp [hna, hfa, hea]
      · rw [if_neg (by simp [hea]; exact fun hh => hak hh.symm)]
        simp [List.mem_cons, hak]

theorem persistOpenCalls_tf (cfg : List (String × Nat))
    (complete : AssetId → String → Ts → Bool) (secs now : ℚ) (latest : Ts)
    (last : ℚ) (acc : Acc) (tf : String) (keys : List Key) :
    ∀ w ∈ persistOpenCalls cfg complete secs now latest last acc tf keys,
      w.timeframe = tf ∧ w.snapshot = true := by
  intro w hw
  unfold persistOpenCalls at hw
  split at hw
  · simp at hw
  · split at hw
    · simp at hw
    · split at hw
      · simp at hw
      · split at hw
        · simp at hw
        · rw [List.mem_singleton] at hw
          subst hw
          exact ⟨rfl, rfl⟩

theorem keyWrites_append (c1 c2 : List SaveCall) (tf : String) (k : Key) :
    keyWrites (c1 ++ c2) tf k = keyWrites c1 tf k ++ keyWrites c2 tf k := by
  simp [keyWrites]

theorem keyWrites_of_ne (calls : List SaveCall) (tf : String) (k : Key)
    (h : ∀ w ∈ calls, w.timeframe ≠ tf) : keyWrites calls tf k = [] := by
  induction calls with
  | nil => rfl
  | cons w rest ih =>
    have hw : ¬ w.timeframe = tf := h w (List.mem_cons_self w rest)
    simp only [keyWrites, List.map_cons, List.flatten_cons]
    rw [if_neg hw, List.nil_append]
    exact ih (fun x hx => h x (List.mem_cons_of_mem w hx))

theorem lookupAcc_congr {st st' : AggState} (h : st'.tf_acc = st.tf_acc)
    (tf : String) : lookupAcc st' tf = lookupAcc st tf := by
  unfold lookupAcc
  rw [h]

theorem persistOpenTF_tfacc (cfg : List (String × Nat))
    (complete : AssetId → String → Ts → Bool) (secs now : ℚ) (latest : Ts)
    (st : AggState) (tf : String) (keys : List Key) :
    (persistOpenTF cfg complete secs now latest st tf keys).2.tf_acc = st.tf_acc := by
  show (if persistOpenCalls cfg complete secs now latest (lastFlush st tf)
      (lookupAcc st tf) tf keys = [] then st
    else { st with last_open_flush := assocUpd st.last_open_flush tf now }).tf_acc
      = st.tf_acc
  split <;> rfl

theorem persistOpenTF_lastFlush_ne (cfg : List (String × Nat))
    (complete : AssetId → String → Ts → Bool) (secs now : ℚ) (latest : Ts)
    (st : AggState) (tf : String) (keys : List Key) (tf' : String) (h : tf' ≠ tf) :
    lastFlush (persistOpenTF cfg complete secs now latest st tf keys).2 tf'
      = lastFlush st tf' := by
  show lastFlush (if persistOpenCalls cfg complete secs now latest (lastFlush st tf)
      (lookupAcc st tf) tf keys = [] then st
    else { st with last_open_flush := assocUpd st.last_open_flush tf now }) tf'
      = lastFlush st tf'
  split
  · rfl
  · show (assocGet (assocUpd st.last_open_flush tf now) tf').getD 0 = _
    rw [assocGet_assocUpd_ne _ _ _ _ h]
    rfl

theorem persist_fold_append (cfg : List (String × Nat))
    (complete : AssetId → String → Ts → Bool) (secs now : ℚ) (latest : Ts) :
    ∀ (touched : List (String × List Key)) (ws : List SaveCall) (st : AggState),
      touched.foldl (persistStep cfg complete secs now latest) (ws, st)
        = (ws ++ (touched.foldl (persistStep cfg complete secs now latest) ([], st)).1,
           (touched.foldl (persistStep cfg complete secs now latest) ([], st)).2) := by
  intro touched
  induction touched with
  | nil => intro ws st; simp
  | cons e rest ih =>
    intro ws st
    have hstep : ∀ (ws' : List SaveCall) (st' : AggState),
        persistStep cfg complete secs now latest (ws', st') e
          = (ws' ++ (persistOpenTF cfg complete secs now latest st' e.1 e.2).1,
             (persistOpenTF cfg complete secs now latest st' e.1 e.2).2) :=
      fun _ _ => rfl
    rw [List.foldl_cons, List.foldl_cons, hstep, hstep,
      ih (ws ++ (persistOpenTF cfg complete secs now latest st e.1 e.2).1)
        (persistOpenTF cfg complete secs now latest st e.1 e.2).2,
      ih ([] ++ (persistOpenTF cfg complete secs now latest st e.1 e.2).1)
        (persistOpenTF cfg complete secs now latest st e.1 e.2).2]
    simp [List.append_assoc]

theorem persist_fold_fst (cfg : List (String × Nat))
    (complete : AssetId → String → Ts → Bool) (secs now : ℚ) (latest : Ts)
    (touched : List (String × List Key)) (ws : List SaveCall) (st : AggState) :
    (touched.foldl (persistStep cfg complete secs now latest) (ws, st)).1
      = ws ++ (touched.foldl (persistStep cfg complete secs now latest) ([], st)).1 := by
  rw [persist_fold_append]

theorem persist_fold_snd (cfg : List (String × Nat))
    (complete : AssetId → String → Ts → Bool) (secs now : ℚ) (latest : Ts)
    (touched : List (String × List Key)) (ws : List SaveCall) (st : AggState) :
    (touched.foldl (persistStep cfg complete secs now latest) (ws, st)).2
      = (touched.foldl (persistStep cfg complete secs now latest) ([], st)).2 := by
  rw [persist_fold_append]

theorem persist_open_calls_mem (cfg : List (String × Nat))
    (complete : AssetId → String → Ts → Bool) (secs now : ℚ) (latest : Ts) :
    ∀ (touched : List (String × List Key)) (st : AggState) (w : SaveCall),
      w ∈ (touched.foldl (persistStep cfg complete secs now latest) ([], st)).1 →
      w.timeframe ∈ touched.map Prod.fst := by
  intro touched
  induction touched with
  | nil => intro st w hw; simp at hw
  | cons e rest ih =>
    intro st w hw
    rw [List.foldl_cons,
      show persistStep cfg complete secs now latest ([], st) e
        = ((persistOpenTF cfg complete secs now latest st e.1 e.2).1,
           (persistOpenTF cfg complete secs now latest st e.1 e.2).2) from rfl,
      persist_fold_fst] at hw
    rcases List.mem_append.mp hw with hw | hw
    · have := (persistOpenCalls_tf cfg complete secs now latest (lastFlush st e.1)
        (lookupAcc st e.1) e.1 e.2 w hw).1
      simp [this]
    · have := ih (persistOpenTF cfg complete secs now latest st e.1 e.2).2 w hw
      simp [this]

theorem persist_open_tfacc (cfg : List (String × Nat))
    (complete : AssetId → String → Ts → Bool) (secs now : ℚ) (latest : Ts) :
    ∀ (touched : List (String × List Key)) (st : AggState),
      (touched.foldl (persistStep cfg complete secs now latest) ([], st)).2.tf_acc
        = st.tf_acc := by
  intro touched
  induction touched with
  | nil => intro st; rfl
  | cons e rest ih =>
    intro st
    rw [List.foldl_cons,
      show persistStep cfg complete secs now latest ([], st) e
        = ((persistOpenTF cfg complete secs now latest st e.1 e.2).1,
           (persistOpenTF cfg complete secs now latest st e.1 e.2).2) from rfl,
      persist_fold_snd, ih, persistOpenTF_tfacc]

theorem persist_open_keyWrites (cfg : List (String × Nat))
    (complete : AssetId → String → Ts → Bool) (secs now : ℚ) (latest : Ts) :
    ∀ (touched : List (String × List Key)) (st : AggState) (tf : String)
      (keys : List Key) (k : Key),
      (touched.map Prod.fst).Nodup → (tf, keys) ∈ touched →
      keyWrites (persist_open cfg complete touched latest secs now st).1 tf k
        = keyWrites (persistOpenCalls cfg complete secs now latest (lastFlush st tf)
            (lookupAcc st tf) tf keys) tf k := by
  intro touched
  induction touched with
  | nil => intro st tf keys k _ hmem; simp at hmem
  | cons e rest ih =>
    intro st tf keys k hnd hmem
    obtain ⟨hne, hndr⟩ := List.nodup_cons.mp hnd
    unfold persist_open
    rw [List.foldl_cons,
      show persistStep cfg complete secs now latest ([], st) e
        = ((persistOpenTF cfg complete secs now latest st e.1 e.2).1,
           (persistOpenTF cfg complete secs now latest st e.1 e.2).2) from rfl,
      persist_fold_fst, keyWrites_append]
    rcases List.mem_cons.mp hmem with heq | hmem'
    · have he1 : e.1 = tf := by rw [← heq]
      have he2 : e.2 = keys := by rw [← heq]
      have hrest0 : keyWrites ((rest.foldl (persistStep cfg complete secs now latest)
          ([], (persistOpenTF cfg complete secs now latest st e.1 e.2).2)).1) tf k
          = [] := by
        apply keyWrites_of_ne
        intro w hw
        have hmemw := persist_open_calls_mem cfg complete secs now latest rest
          (persistOpenTF cfg complete secs now latest st e.1 e.2).2 w hw
        intro hwtf
        rw [hwtf, ← he1] at hmemw
        exact hne hmemw
      rw [hrest0, List.append_nil, he1, he2]
      rfl
    · have htfmem : tf ∈ rest.map Prod.fst := List.mem_map.mpr ⟨(tf, keys), hmem', rfl⟩
      have htfne : tf ≠ e.1 := fun hh => hne (hh ▸ htfmem)
      have hhead : keyWrites (persistOpenTF cfg complete secs now latest st e.1 e.2).1
          tf k = [] := by
        apply keyWrites_of_ne
        intro w hw
        have := (persistOpenCalls_tf cfg complete secs now latest (lastFlush st e.1)
          (lookupAcc st e.1) e.1 e.2 w hw).1
        rw [this]
        exact Ne.symm htfne
      rw [hhead, List.nil_append]
      have ihr := ih (persistOpenTF cfg complete secs now latest st e.1 e.2).2 tf keys
        k hndr hmem'
      rw [show persist_open cfg complete rest latest secs now
          (persistOpenTF cfg complete secs now latest st e.1 e.2).2
          = rest.foldl (persistStep cfg complete secs now latest)
            ([], (persistOpenTF cfg complete secs now latest st e.1 e.2).2) from rfl]
        at ihr
      rw [ihr, persistOpenTF_lastFlush_ne cfg complete secs now latest st e.1 e.2 tf
        htfne,
        lookupAcc_congr (persistOpenTF_tfacc cfg complete secs now latest st e.1 e.2)
          tf]

theorem toPersist_mem (complete : AssetId → String → Ts → Bool) (latest : Ts)
    (delta : Nat) (acc : Acc) (tf : String) (keys : List Key) (e : Key × AccEntry)
    (he : e ∈ keys.filterMap (fun k =>
        if latest < k.2 + delta ∧ complete k.1 tf k.2 then
          (assocGet acc k).map (fun d => (k, d))
        else none)) :
    e.1 ∈ keys ∧ (latest < e.1.2 + delta ∧ complete e.1.1 tf e.1.2 = true) ∧
      assocGet acc e.1 = some e.2 := by
  obtain ⟨k', hk', hf⟩ := List.mem_filterMap.mp he
  by_cases hcond : latest < k'.2 + delta ∧ complete k'.1 tf k'.2
  · rw [if_pos hcond] at hf
    cases hg : assocGet acc k' with
    | none => rw [hg] at hf; simp at hf
    | some d =>
      rw [hg] at hf
      simp only [Option.map_some'] at hf
      have hfe : (k', d) = e := Option.some.inj hf
      rw [← hfe]
      exact ⟨hk', ⟨hcond.1, hcond.2⟩, hg⟩
  · rw [if_neg hcond] at hf
    simp at hf

theorem persistOpenCalls_keyWrites_incomplete (cfg : List (String × Nat))
    (complete : AssetId → String → Ts → Bool) (secs now : ℚ) (latest : Ts)
    (last : ℚ) (acc : Acc) (tf : String) (keys : List Key) (k : Key)
    (hc : complete k.1 tf k.2 = false) :
    keyWrites (persistOpenCalls cfg complete secs now latest last acc tf keys) tf k
      = [] := by
  unfold persistOpenCalls
  split
  · rfl
  · split
    · rfl
    · split
      · rfl
      · split
        · rfl
        next delta hdelta hne =>
          simp only [keyWrites, List.map_cons, List.map_nil, List.flatten_cons,
            List.flatten_nil, List.append_nil]
          rw [if_true]
          rw [List.filter_eq_nil_iff.mpr ?_]
          · rfl
          · intro e hemem
            obtain ⟨hk', hcond, _⟩ := toPersist_mem complete latest delta acc tf keys
              e hemem
            intro hek
            have : e.1 = k := by simpa using hek
            rw [this] at hcond
            rw [hcond.2] at hc
            exact Bool.true_eq_false.mp hc

theorem persistOpenCalls_keyWrites_complete (cfg : List (String × Nat))
    (complete : AssetId → String → Ts → Bool) (secs now : ℚ) (latest : Ts)
    (last : ℚ) (acc : Acc) (tf : String) (keys : List Key) (k : Key) (delta : Nat)
    (data : AccEntry) (h1t : tf ≠ TF_1T) (hk : k ∈ keys) (hknd : keys.Nodup)
    (hcfg : assocGet cfg tf = some delta) (hthr : secs ≤ now - last)
    (hopen : latest < k.2 + delta) (hc : complete k.1 tf k.2 = true)
    (hdata : assocGet acc k = some data) :
    keyWrites (persistOpenCalls cfg complete secs now latest last acc tf keys) tf k
      = [(data, true)] := by
  have hkeys : keys ≠ [] := List.ne_nil_of_mem hk
  unfold persistOpenCalls
  rw [if_neg (by simp [h1t, hkeys]), if_neg (not_lt.mpr hthr)]
  split
  next h => rw [hcfg] at h; exact Option.noConfusion h
  next delta' hdelta' =>
    have hdd : delta' = delta := by
      rw [hcfg] at hdelta'
      exact (Option.some.inj hdelta').symm
    subst hdd
    have hkmem : (k, data) ∈ keys.filterMap (fun k =>
        if latest < k.2 + delta' ∧ complete k.1 tf k.2 then
          (assocGet acc k).map (fun d => (k, d))
        else none) := by
      apply List.mem_filterMap.mpr
      refine ⟨k, hk, ?_⟩
      rw [if_pos ⟨hopen, by rw [hc]⟩, hdata]
      rfl
    rw [if_neg (List.ne_nil_of_mem hkmem)]
    simp only [keyWrites, List.map_cons, List.map_nil, List.flatten_cons,
      List.flatten_nil, List.append_nil]
    rw [if_true]
    rw [filterMap_filter_key keys _ ?hf k hknd, if_pos hk, if_pos ⟨hopen, by rw [hc]⟩,
      hdata]
    · rfl
    case hf =>
      intro a e hfe
      by_cases hcond : latest < a.2 + delta' ∧ complete a.1 tf a.2
      · rw [if_pos hcond] at hfe
        cases hg : assocGet acc a with
        | none => rw [hg] at hfe; simp at hfe
        | some d =>
          rw [hg] at hfe
          simp only [Option.map_some'] at hfe
          rw [← Option.some.inj hfe]
      · rw [if_neg hcond] at hfe
        simp at hfe

/-- C1: for a higher-timeframe key touched in a batch whose bucket end-time
is strictly after `latest_m1`: `persist_open` never mutates the accumulator
(so the key's entry remains in memory unchanged); when
`is_historical_complete` is false for the key, no store write mentions it;
when it is true, the per-timeframe throttle has elapsed, and the key has
accumulator data, the call writes exactly that key's accumulator state,
exactly once, in snapshot mode. -/
theorem persist_open_backfill_gate (cfg : List (String × Nat))
    (complete : AssetId → String → Ts → Bool) (touched : List (String × List Key))
    (latest : Ts) (secs now : ℚ) (st : AggState) (tf : String) (delta : Nat)
    (keys : List Key) (k : Key)
    (hnd : (touched.map Prod.fst).Nodup) (hmem : (tf, keys) ∈ touched)
    (h1t : tf ≠ TF_1T) (hcfg : assocGet cfg tf = some delta)
    (hk : k ∈ keys) (hknd : keys.Nodup) (hopen : latest < k.2 + delta) :
    ((persist_open cfg complete touched latest secs now st).2.tf_acc = st.tf_acc) ∧
    (complete k.1 tf k.2 = false →
        keyWrites (persist_open cfg complete touched latest secs now st).1 tf k
          = []) ∧
    (complete k.1 tf k.2 = true → secs ≤ now - lastFlush st tf →
        ∀ data, assocGet (lookupAcc st tf) k = some data →
          keyWrites (persist_open cfg complete touched latest secs now st).1 tf k
            = [(data, true)]) := by
  refine ⟨persist_open_tfacc cfg complete secs now latest touched st, ?_, ?_⟩
  · intro hc
    rw [persist_open_keyWrites cfg complete secs now latest touched st tf keys k hnd
      hmem]
    exact persistOpenCalls_keyWrites_incomplete cfg complete secs now latest
      (lastFlush st tf) (lookupAcc st tf) tf keys k hc
  · intro hc hthr data hdata
    rw [persist_open_keyWrites cfg complete secs now latest touched st tf keys k hnd
      hmem]
    exact persistOpenCalls_keyWrites_complete cfg complete secs now latest
      (lastFlush st tf) (lookupAcc st tf) tf keys k delta data h1t hk hknd hcfg hthr
      hopen hc hdata

/-- C1 witness: one touched 5T key with an open bucket, a passing backfill
gate, and an elapsed throttle is written exactly once, in snapshot mode,
with its accumulator data. -/
theorem persist_open_backfill_gate_witness :
    keyWrites (persist_open TF_CFG (fun _ _ _ => true) [("5T", [((1 : AssetId),
        (300 : Ts))])] 500 (1/4) 10
      ⟨[("5T", [(((1 : AssetId), (300 : Ts)), ⟨some 1, 2, 1, 2, some 5⟩)])], []⟩).1
      "5T" (1, 300)
      = [(⟨some 1, 2, 1, 2, some 5⟩, true)] :=
  (persist_open_backfill_gate TF_CFG (fun _ _ _ => true)
      [("5T", [((1 : AssetId), (300 : Ts))])] 500 (1/4) 10
      ⟨[("5T", [(((1 : AssetId), (300 : Ts)), ⟨some 1, 2, 1, 2, some 5⟩)])], []⟩
      "5T" 300 [((1 : AssetId), (300 : Ts))] (1, 300)
      (by decide) (by decide) (by decide) (by decide) (by decide) (by decide)
      (by decide)).2.2 rfl
    (by norm_num [lastFlush, assocGet])
    ⟨some 1, 2, 1, 2, some 5⟩ (by decide)

theorem assocGet_eq_none_of_not_mem {κ ν : Type} [DecidableEq κ]
    (l : List (κ × ν)) (k : κ) (h : k ∉ l.map Prod.fst) : assocGet l k = none := by
  induction l with
  | nil => rfl
  | cons e rest ih =>
    have he : ¬ e.1 = k := fun hh => h (by simp [hh])
    simp only [assocGet, if_neg he]
    exact ih (fun hh => h (by simp [hh]))

theorem assocGet_filter {κ ν : Type} [DecidableEq κ] (l : List (κ × ν))
    (p : κ × ν → Bool) (k : κ) (v : ν) :
    (l.map Prod.fst).Nodup → assocGet l k = some v →
    assocGet (l.filter p) k = if p (k, v) then some v else none := by
  induction l with
  | nil => intro _ h; simp [assocGet] at h
  | cons e rest ih =>
    intro hnd h
    obtain ⟨hne, hndr⟩ := List.nodup_cons.mp hnd
    by_cases he : e.1 = k
    · have hv : e.2 = v := by
        simpa [assocGet, he] using h
      have hekv : e = (k, v) := by
        cases e
        simp only at he hv
        rw [he, hv]
      rw [List.filter_cons]
      by_cases hp : p e = true
      · rw [if_pos hp]
        rw [hekv] at hp
        simp [assocGet, he, hp, hv]
      · have hp' : p (k, v) = false := by
          rw [← hekv]
          exact Bool.eq_false_iff.mpr hp
        rw [if_neg hp, hp']
        simp only [Bool.false_eq_true, if_false]
        apply assocGet_eq_none_of_not_mem
        intro hmem
        apply hne
        rw [he]
        obtain ⟨x, hx, hxk⟩ := List.mem_map.mp hmem
        have hxrest : x ∈ rest := List.mem_of_mem_filter hx
        rw [← hxk]
        exact List.mem_map.mpr ⟨x, hxrest, rfl⟩
    · have h' : assocGet rest k = some v := by
        simpa [assocGet, he] using h
      rw [List.filter_cons]
      by_cases hp : p e = true
      · rw [if_pos hp]
        simp only [assocGet, if_neg he]
        exact ih hndr h'
      · rw [if_neg hp]
        exact ih hndr h'

theorem flush_fold_eq (tf : String) (delta : Nat)
    (complete : AssetId → String → Ts → Bool) (latest : Ts) :
    ∀ (l : List (Key × AccEntry)) (cur : Acc) (ws : List SaveCall),
      l.foldl (flushStep tf delta complete latest) (cur, ws)
        = (cur.filter (fun e => ¬ (e.1.2 + delta ≤ latest ∧ e.1 ∈ l.map Prod.fst)),
           ws ++ flushCalls tf delta complete latest l) := by
  intro l
  induction l with
  | nil =>
    intro cur ws
    simp [flushCalls, List.filter_eq_self]
  | cons x rest ih =>
    intro cur ws
    rw [List.foldl_cons]
    by_cases hx : x.1.2 + delta ≤ latest
    · by_cases hcx : complete x.1.1 tf x.1.2 = true
      · rw [show flushStep tf delta complete latest (cur, ws) x
            = (assocDel cur x.1, ws ++ [⟨tf, [x], true⟩]) by
          simp [flushStep, hx, hcx]]
        rw [ih]
        simp only [Prod.mk.injEq]
        constructor
        · rw [assocDel, List.filter_filter]
          apply List.filter_congr
          intro e _
          by_cases hex : e.1 = x.1
          · simp [hex, hx]
          · have hbeq : (e.1 == x.1) = false := beq_eq_false_iff_ne.mpr hex
            simp [hbeq, hex]
        · rw [show flushCalls tf delta complete latest (x :: rest)
              = ⟨tf, [x], true⟩ :: flushCalls tf delta complete latest rest by
            simp [flushCalls, List.filterMap_cons, hx, hcx]]
          simp
      · rw [show flushStep tf delta complete latest (cur, ws) x
            = (assocDel cur x.1, ws) by
          simp [flushStep, hx, hcx]]
        rw [ih]
        simp only [Prod.mk.injEq]
        constructor
        · rw [assocDel, List.filter_filter]
          apply List.filter_congr
          intro e _
          by_cases hex : e.1 = x.1
          · simp [hex, hx]
          · have hbeq : (e.1 == x.1) = false := beq_eq_false_iff_ne.mpr hex
            simp [hbeq, hex]
        · rw [show flushCalls tf delta complete latest (x :: rest)
              = flushCalls tf delta complete latest rest by
            simp [flushCalls, List.filterMap_cons, hcx]]
    · rw [show flushStep tf delta complete latest (cur, ws) x = (cur, ws) by
        simp [flushStep, hx]]
      rw [ih]
      simp only [Prod.mk.injEq]
      constructor
      · apply List.filter_congr
        intro e _
        by_cases hex : e.1 = x.1
        · simp [hex, hx]
        · have hbeq : (e.1 == x.1) = false := beq_eq_false_iff_ne.mpr hex
          simp [hbeq, hex]
      · rw [show flushCalls tf delta complete latest (x :: rest)
            = flushCalls tf delta complete latest rest by
          simp [flushCalls, List.filterMap_cons, hx]]

theorem flushClosedAcc_fst (tf : String) (delta : Nat)
    (complete : AssetId → String → Ts → Bool) (latest : Ts) (acc : Acc) :
    (flushClosedAcc tf delta complete latest acc).1
      = acc.filter (fun e => ¬ e.1.2 + delta ≤ latest) := by
  unfold flushClosedAcc
  rw [flush_fold_eq]
  apply List.filter_congr
  intro e he
  have hm : e.1 ∈ acc.map Prod.fst := List.mem_map.mpr ⟨e, he, rfl⟩
  simp [hm]

theorem flushClosedAcc_snd (tf : String) (delta : Nat)
    (complete : AssetId → String → Ts → Bool) (latest : Ts) (acc : Acc) :
    (flushClosedAcc tf delta complete latest acc).2
      = flushCalls tf delta complete latest acc := by
  unfold flushClosedAcc
  rw [flush_fold_eq]
  rfl

theorem flushCalls_tf (tf : String) (delta : Nat)
    (complete : AssetId → String → Ts → Bool) (latest : Ts) (acc : Acc) :
    ∀ w ∈ flushCalls tf delta complete latest acc, w.timeframe = tf := by
  intro w hw
  obtain ⟨e, _, hf⟩ := List.mem_filterMap.mp hw
  by_cases hcond : e.1.2 + delta ≤ latest ∧ complete e.1.1 tf e.1.2
  · rw [if_pos hcond] at hf
    rw [← Option.some.inj hf]
  · rw [if_neg hcond] at hf
    simp at hf

theorem flushCalls_keyWrites_notmem (tf : String) (delta : Nat)
    (complete : AssetId → String → Ts → Bool) (latest : Ts) :
    ∀ (acc : Acc) (k : Key), k ∉ acc.map Prod.fst →
      keyWrites (flushCalls tf delta complete latest acc) tf k = [] := by
  intro acc
  induction acc with
  | nil => intro k _; rfl
  | cons e rest ih =>
    intro k hk
    have hek : ¬ e.1 = k := fun hh => hk (by simp [hh])
    have hkr : k ∉ rest.map Prod.fst := fun hh => hk (by simp [hh])
    rw [show flushCalls tf delta complete latest (e :: rest)
        = (if e.1.2 + delta ≤ latest ∧ complete e.1.1 tf e.1.2 then
            [(⟨tf, [e], true⟩ : SaveCall)] else [])
          ++ flushCalls tf delta complete latest rest by
      by_cases hcond : e.1.2 + delta ≤ latest ∧ complete e.1.1 tf e.1.2
      · simp [flushCalls, List.filterMap_cons, hcond]
      · simp [flushCalls, List.filterMap_cons, hcond]]
    rw [keyWrites_append, ih k hkr, List.append_nil]
    by_cases hcond : e.1.2 + delta ≤ latest ∧ complete e.1.1 tf e.1.2
    · rw [if_pos hcond]
      simp [keyWrites, hek]
    · rw [if_neg hcond]
      rfl

theorem flushCalls_keyWrites (tf : String) (delta : Nat)
    (complete : AssetId → String → Ts → Bool) (latest : Ts) :
    ∀ (acc : Acc) (k : Key) (data : AccEntry), (acc.map Prod.fst).Nodup →
      assocGet acc k = some data →
      keyWrites (flushCalls tf delta complete latest acc) tf k
        = if k.2 + delta ≤ latest ∧ complete k.1 tf k.2 then [(data, true)]
          else [] := by
  intro acc
  induction acc with
  | nil => intro k data _ hget; simp [assocGet] at hget
  | cons e rest ih =>
    intro k data hnd hget
    obtain ⟨hne, hndr⟩ := List.nodup_cons.mp hnd
    rw [show flushCalls tf delta complete latest (e :: rest)
        = (if e.1.2 + delta ≤ latest ∧ complete e.1.1 tf e.1.2 then
            [(⟨tf, [e], true⟩ : SaveCall)] else [])
          ++ flushCalls tf delta complete latest rest by
      by_cases hcond : e.1.2 + delta ≤ latest ∧ complete e.1.1 tf e.1.2
      · simp [flushCalls, List.filterMap_cons, hcond]
      · simp [flushCalls, List.filterMap_cons, hcond]]
    rw [keyWrites_append]
    by_cases hek : e.1 = k
    · have hed : e.2 = data := by
        simpa [assocGet, hek] using hget
      have hkr : k ∉ rest.map Prod.fst := fun hh => hne (hek ▸ hh)
      rw [flushCalls_keyWrites_notmem tf delta complete latest rest k hkr,
        List.append_nil]
      have hkey : (k.2 + delta ≤ latest ∧ complete k.1 tf k.2)
          ↔ (e.1.2 + delta ≤ latest ∧ complete e.1.1 tf e.1.2) := by
        rw [hek]
      by_cases hcond : e.1.2 + delta ≤ latest ∧ complete e.1.1 tf e.1.2
      · rw [if_pos hcond, if_pos (hkey.mpr hcond)]
        simp [keyWrites, hek, hed]
      · rw [if_neg hcond, if_neg (fun hh => hcond (hkey.mp hh))]
        rfl
    · have hget' : assocGet rest k = some data := by
        simpa [assocGet, hek] using hget
      rw [ih k data hndr hget']
      by_cases hcond : e.1.2 + delta ≤ latest ∧ complete e.1.1 tf e.1.2
      · rw [if_pos hcond]
        simp [keyWrites, hek]
      · rw [if_neg hcond]
        rfl

theorem flushTFStep_split (complete : AssetId → String → Ts → Bool) (latest : Ts)
    (st : AggState) (ws : List SaveCall) (e : String × Nat) :
    flushTFStep complete latest (st, ws) e
      = ((flushTFStep complete latest (st, []) e).1,
         ws ++ (flushTFStep complete latest (st, []) e).2) := by
  by_cases h1 : e.1 = TF_1T
  · simp [flushTFStep, h1]
  · by_cases h2 : lookupAcc st e.1 = []
    · simp [flushTFStep, h1, h2]
    · simp [flushTFStep, h1, h2]

theorem flushTFStep_lookupAcc_ne (complete : AssetId → String → Ts → Bool)
    (latest : Ts) (st : AggState) (ws : List SaveCall) (e : String × Nat)
    (tf : String) (h : tf ≠ e.1) :
    lookupAcc (flushTFStep complete latest (st, ws) e).1 tf = lookupAcc st tf := by
  by_cases h1 : e.1 = TF_1T
  · simp [flushTFStep, h1]
  · by_cases h2 : lookupAcc st e.1 = []
    · simp [flushTFStep, h1, h2]
    · rw [show (flushTFStep complete latest (st, ws) e).1
          = (⟨assocUpd st.tf_acc e.1
                (flushClosedAcc e.1 e.2 complete latest (lookupAcc st e.1)).1,
              st.last_open_flush⟩ : AggState) by
        simp [flushTFStep, h1, h2]]
      show (assocGet (assocUpd st.tf_acc e.1 _) tf).getD [] = _
      rw [assocGet_assocUpd_ne _ _ _ _ h]
      rfl

theorem flushTFStep_lookupAcc_self (complete : AssetId → String → Ts → Bool)
    (latest : Ts) (st : AggState) (ws : List SaveCall) (e : String × Nat)
    (h1t : e.1 ≠ TF_1T) :
    lookupAcc (flushTFStep complete latest (st, ws) e).1 e.1
      = (flushClosedAcc e.1 e.2 complete latest (lookupAcc st e.1)).1 := by
  by_cases h2 : lookupAcc st e.1 = []
  · rw [show (flushTFStep complete latest (st, ws) e).1 = st by
      simp [flushTFStep, h1t, h2]]
    rw [h2]
    rfl
  · rw [show (flushTFStep complete latest (st, ws) e).1
        = (⟨assocUpd st.tf_acc e.1
              (flushClosedAcc e.1 e.2 complete latest (lookupAcc st e.1)).1,
            st.last_open_flush⟩ : AggState) by
      simp [flushTFStep, h1t, h2]]
    show (assocGet (assocUpd st.tf_acc e.1 _) e.1).getD [] = _
    rw [assocGet_assocUpd_self]
    rfl

theorem flushTFStep_calls_eq (complete : AssetId → String → Ts → Bool) (latest : Ts)
    (st : AggState) (ws : List SaveCall) (e : String × Nat) (h1t : e.1 ≠ TF_1T) :
    (flushTFStep complete latest (st, ws) e).2
      = ws ++ (flushClosedAcc e.1 e.2 complete latest (lookupAcc st e.1)).2 := by
  by_cases h2 : lookupAcc st e.1 = []
  · rw [show (flushTFStep complete latest (st, ws) e).2 = ws by
      simp [flushTFStep, h1t, h2]]
    rw [h2, show (flushClosedAcc e.1 e.2 complete latest []).2 = [] from rfl,
      List.append_nil]
  · simp [flushTFStep, h1t, h2]

theorem flushTFStep_calls_1T (complete : AssetId → String → Ts → Bool) (latest : Ts)
    (st : AggState) (ws : List SaveCall) (e : String × Nat) (h1t : e.1 = TF_1T) :
    (flushTFStep complete latest (st, ws) e).2 = ws := by
  simp [flushTFStep, h1t]

theorem flush_fold_append (complete : AssetId → String → Ts → Bool) (latest : Ts) :
    ∀ (cfg : List (String × Nat)) (st : AggState) (ws : List SaveCall),
      cfg.foldl (flushTFStep complete latest) (st, ws)
        = ((cfg.foldl (flushTFStep complete latest) (st, [])).1,
           ws ++ (cfg.foldl (flushTFStep complete latest) (st, [])).2) := by
  intro cfg
  induction cfg with
  | nil => intro st ws; simp
  | cons e rest ih =>
    intro st ws
    rw [List.foldl_cons, List.foldl_cons, flushTFStep_split complete latest st ws e]
    generalize flushTFStep complete latest (st, []) e = q
    obtain ⟨q1, q2⟩ := q
    dsimp only
    rw [ih q1 (ws ++ q2), ih q1 q2]
    simp [List.append_assoc]

theorem flush_fold_fst (complete : AssetId → String → Ts → Bool) (latest : Ts)
    (cfg : List (String × Nat)) (st : AggState) (ws : List SaveCall) :
    (cfg.foldl (flushTFStep complete latest) (st, ws)).1
      = (cfg.foldl (flushTFStep complete latest) (st, [])).1 := by
  rw [flush_fold_append]

theorem flush_fold_snd_append (complete : AssetId → String → Ts → Bool)
    (latest : Ts) (cfg : List (String × Nat)) (st : AggState) (ws : List SaveCall) :
    (cfg.foldl (flushTFStep complete latest) (st, ws)).2
      = ws ++ (cfg.foldl (flushTFStep complete latest) (st, [])).2 := by
  rw [flush_fold_append]

theorem flush_fold_lookupAcc_notmem (complete : AssetId → String → Ts → Bool)
    (latest : Ts) :
    ∀ (cfg : List (String × Nat)) (st : AggState) (tf : String),
      tf ∉ cfg.map Prod.fst →
      lookupAcc (cfg.foldl (flushTFStep complete latest) (st, [])).1 tf
        = lookupAcc st tf := by
  intro cfg
  induction cfg with
  | nil => intro st tf _; rfl
  | cons e rest ih =>
    intro st tf htf
    have h1 : tf ≠ e.1 := fun hh => htf (by simp [hh])
    have h2 : tf ∉ rest.map Prod.fst := fun hh => htf (by simp [hh])
    rw [List.foldl_cons, flushTFStep_split complete latest st [] e,
      flush_fold_fst complete latest rest,
      ih (flushTFStep complete latest (st, []) e).1 tf h2]
    exact flushTFStep_lookupAcc_ne complete latest st [] e tf h1

theorem flush_calls_mem (complete : AssetId → String → Ts → Bool) (latest : Ts) :
    ∀ (cfg : List (String × Nat)) (st : AggState) (w : SaveCall),
      w ∈ (cfg.foldl (flushTFStep complete latest) (st, [])).2 →
      w.timeframe ∈ cfg.map Prod.fst := by
  intro cfg
  induction cfg with
  | nil => intro st w hw; simp at hw
  | cons e rest ih =>
    intro st w hw
    rw [List.foldl_cons, flushTFStep_split complete latest st [] e,
      flush_fold_snd_append complete latest rest] at hw
    rcases List.mem_append.mp hw with hw | hw
    · rw [List.nil_append] at hw
      by_cases h1 : e.1 = TF_1T
      · rw [flushTFStep_calls_1T complete latest st [] e h1] at hw
        simp at hw
      · rw [flushTFStep_calls_eq complete latest st [] e h1, List.nil_append] at hw
        rw [flushClosedAcc_snd] at hw
        have := flushCalls_tf e.1 e.2 complete latest (lookupAcc st e.1) w hw
        simp [this]
    · have := ih (flushTFStep complete latest (st, []) e).1 w hw
      simp [this]

theorem flush_closed_decompose (complete : AssetId → String → Ts → Bool)
    (latest : Ts) :
    ∀ (cfg : List (String × Nat)) (st : AggState) (tf : String) (delta : Nat)
      (k : Key), (cfg.map Prod.fst).Nodup → (tf, delta) ∈ cfg → tf ≠ TF_1T →
      lookupAcc (cfg.foldl (flushTFStep complete latest) (st, [])).1 tf
          = (flushClosedAcc tf delta complete latest (lookupAcc st tf)).1 ∧
      keyWrites (cfg.foldl (flushTFStep complete latest) (st, [])).2 tf k
          = keyWrites (flushClosedAcc tf delta complete latest (lookupAcc st tf)).2
              tf k := by
  intro cfg
  induction cfg with
  | nil => intro st tf delta k _ hmem _; simp at hmem
  | cons e rest ih =>
    intro st tf delta k hnd hmem h1t
    obtain ⟨hne, hndr⟩ := List.nodup_cons.mp hnd
    rw [List.foldl_cons, flushTFStep_split complete latest st [] e]
    rcases List.mem_cons.mp hmem with heq | hmem'
    · have he1 : e.1 = tf := by rw [← heq]
      have he2 : e.2 = delta := by rw [← heq]
      have htfrest : tf ∉ rest.map Prod.fst := he1 ▸ hne
      constructor
      · rw [flush_fold_fst complete latest rest,
          flush_fold_lookupAcc_notmem complete latest rest _ tf htfrest,
          ← he1, ← he2]
        exact flushTFStep_lookupAcc_self complete latest st [] e
          (by rw [he1]; exact h1t)
      · rw [flush_fold_snd_append complete latest rest, keyWrites_append]
        have hrest0 : keyWrites (rest.foldl (flushTFStep complete latest)
            ((flushTFStep complete latest (st, []) e).1, [])).2 tf k = [] := by
          apply keyWrites_of_ne
          intro w hw hwtf
          exact htfrest (hwtf ▸ flush_calls_mem complete latest rest
            (flushTFStep complete latest (st, []) e).1 w hw)
        rw [hrest0, List.append_nil,
          flushTFStep_calls_eq complete latest st [] e (by rw [he1]; exact h1t),
          he1, he2]
        simp only [List.nil_append]
    · have htfmem : tf ∈ rest.map Prod.fst :=
        List.mem_map.mpr ⟨(tf, delta), hmem', rfl⟩
      have htfne : tf ≠ e.1 := fun hh => hne (hh ▸ htfmem)
      obtain ⟨ih1, ih2⟩ := ih (flushTFStep complete latest (st, []) e).1 tf delta k
        hndr hmem' h1t
      constructor
      · rw [flush_fold_fst complete latest rest, ih1,
          flushTFStep_lookupAcc_ne complete latest st [] e tf htfne]
      · rw [flush_fold_snd_append complete latest rest, keyWrites_append]
        have hhead : keyWrites ([] ++ (flushTFStep complete latest (st, []) e).2)
            tf k = [] := by
          rw [List.nil_append]
          by_cases h1 : e.1 = TF_1T
          · rw [flushTFStep_calls_1T complete latest st [] e h1]
            rfl
          · rw [flushTFStep_calls_eq complete latest st [] e h1, List.nil_append,
              flushClosedAcc_snd]
            apply keyWrites_of_ne
            intro w hw hwtf
            have hwe := flushCalls_tf e.1 e.2 complete latest (lookupAcc st e.1)
              w hw
            rw [hwtf] at hwe
            exact htfne hwe
        rw [hhead, List.nil_append, ih2,
          flushTFStep_lookupAcc_ne complete latest st [] e tf htfne]

/-- C2: for every accumulator entry of a higher configured timeframe: if its
bucket end-time is at or before `latest_m1`, `flush_closed` removes the
entry from memory in all cases and writes it to the store (one single-key
snapshot-mode call) iff `is_historical_complete` holds for it at flush
time; an entry whose end-time is after `latest_m1` stays in memory
unchanged and is not written. -/
theorem flush_closed_evicts_and_gates (cfg : List (String × Nat))
    (complete : AssetId → String → Ts → Bool) (latest : Ts) (st : AggState)
    (tf : String) (delta : Nat) (k : Key) (data : AccEntry)
    (hnd : (cfg.map Prod.fst).Nodup) (hmem : (tf, delta) ∈ cfg) (h1t : tf ≠ TF_1T)
    (hacc : ((lookupAcc st tf).map Prod.fst).Nodup)
    (hk : assocGet (lookupAcc st tf) k = some data) :
    (k.2 + delta ≤ latest →
        assocGet (lookupAcc (flush_closed cfg complete latest st).1 tf) k = none ∧
        keyWrites (flush_closed cfg complete latest st).2 tf k
          = (if complete k.1 tf k.2 then [(data, true)] else [])) ∧
    (latest < k.2 + delta →
        assocGet (lookupAcc (flush_closed cfg complete latest st).1 tf) k
            = some data ∧
        keyWrites (flush_closed cfg complete latest st).2 tf k = []) := by
  obtain ⟨hd1, hd2⟩ := flush_closed_decompose complete latest cfg st tf delta k hnd
    hmem h1t
  rw [show flush_closed cfg complete latest st
      = cfg.foldl (flushTFStep complete latest) (st, []) from rfl, hd1, hd2,
    flushClosedAcc_fst, flushClosedAcc_snd,
    flushCalls_keyWrites tf delta complete latest (lookupAcc st tf) k data hacc hk,
    assocGet_filter (lookupAcc st tf) _ k data hacc hk]
  constructor
  · intro hclosed
    constructor
    · rw [if_neg (by simp [hclosed])]
    · by_cases hc : complete k.1 tf k.2 = true
      · rw [if_pos ⟨hclosed, hc⟩, if_pos hc]
      · rw [if_neg (fun hh => hc hh.2), if_neg hc]
  · intro hopen
    constructor
    · rw [if_pos (by simp [not_le.mpr hopen])]
    · rw [if_neg (fun hh => absurd hh.1 (not_le.mpr hopen))]

/-- C2 witness: a closed 5T entry (bucket end 600 ≤ latest 1000) with a
passing backfill gate is removed from the accumulator and written exactly
once in snapshot mode with its accumulator data. -/
theorem flush_closed_evicts_and_gates_witness :
    assocGet (lookupAcc (flush_closed TF_CFG (fun _ _ _ => true) 1000
        ⟨[("5T", [(((1 : AssetId), (300 : Ts)), ⟨some 1, 2, 1, 2, some 5⟩)])],
          []⟩).1 "5T") ((1 : AssetId), (300 : Ts)) = none ∧
    keyWrites (flush_closed TF_CFG (fun _ _ _ => true) 1000
        ⟨[("5T", [(((1 : AssetId), (300 : Ts)), ⟨some 1, 2, 1, 2, some 5⟩)])],
          []⟩).2 "5T" (1, 300) = [(⟨some 1, 2, 1, 2, some 5⟩, true)] := by
  have h := (flush_closed_evicts_and_gates TF_CFG (fun _ _ _ => true) 1000
      ⟨[("5T", [(((1 : AssetId), (300 : Ts)), ⟨some 1, 2, 1, 2, some 5⟩)])], []⟩
      "5T" 300 (1, 300) ⟨some 1, 2, 1, 2, some 5⟩
      (by decide) (by decide) (by decide) (by decide) (by decide)).1 (by decide)
  simpa using h

/-- C8 witness: the amended theorem applied at the spec's concrete example. -/
theorem floor_to_bucket_epoch_aligned_witness :
    floor_to_bucket 1698676365 300 = 1698676365 / 300 * 300 ∧
    floor_to_bucket exTs 300 = exTs5Floor := by
  have h := floor_to_bucket_epoch_aligned 1698676365 300 (by norm_num)
  norm_num at h
  exact h

end AlpacaWS
